import Mathlib

/-!
Shallow embedding of the Indexed Balanced Tree Engine
(`Proyecto AVL/models/avl.py`): an AVL tree of inventory records keyed by an
integer, with insert/delete/search operations, price-range and category
queries, an update-in-place operation and a snapshot codec.

Modelling conventions:
* Python `None` children become the `NodoAVL.nil` constructor.
* Prices are Python floats used only in order comparisons, never in
  arithmetic; they are embedded as `Int` (any linearly ordered carrier gives
  the same control flow).
* A dereference of an absent node (`None.attr`, an `AttributeError` in
  Python) is modelled by returning `none` / a `caida` result.
* The rotation-observer callback is modelled by returning the list of
  emitted `(kind, outerKey, innerKey)` events alongside the new subtree.
* File I/O in the snapshot codec is not modelled; the codec's record
  sequence (the parsed JSON array) is passed directly.
* `rotations_performed` (the human-readable strings accumulated during
  deletion, returned for display) is observability-only and is not modelled.
-/

namespace AVLModelo

/-- A stored inventory record: the payload of one tree node
(`NodoAVL.__init__` fields `clave`, `nombre`, `cantidad`, `precio`,
`categoria`). -/
structure Registro where
  clave : Int
  nombre : String
  cantidad : Int
  precio : Int
  categoria : String
deriving DecidableEq, Repr

/-- A (possibly absent) AVL node: `None` or a node with a record, a stored
height and two children (`NodoAVL` in the source, whose `altura` starts
at 1). -/
inductive NodoAVL where
  | nil : NodoAVL
  | nodo (reg : Registro) (altura : Nat) (izquierda derecha : NodoAVL) : NodoAVL
deriving DecidableEq, Repr

namespace NodoAVL

/-- `AVLTree.obtener_altura`: stored height of a node, 0 for an absent
node. -/
def obtener_altura : NodoAVL → Nat
  | .nil => 0
  | .nodo _ h _ _ => h

/-- `AVLTree.obtener_balance`: stored-height balance factor, 0 for an absent
node. -/
def obtener_balance : NodoAVL → Int
  | .nil => 0
  | .nodo _ _ i d => (obtener_altura i : Int) - (obtener_altura d : Int)

/-- The height-update statement `nodo.altura = 1 + max(obtener_altura(izq),
obtener_altura(der))` performed by insert/delete/rotations. -/
def nodoConAltura (r : Registro) (i d : NodoAVL) : NodoAVL :=
  .nodo r (1 + max (obtener_altura i) (obtener_altura d)) i d

/-- Kind of a rotation event sent to the observer callback. -/
inductive TipoRotacion where
  | derecha : TipoRotacion
  | izquierda : TipoRotacion
deriving DecidableEq, Repr

/-- One `(kind, outerKey, innerKey)` rotation notification
(`rotation_callback(kind, y.clave, x.clave)`). -/
structure EventoRotacion where
  tipo : TipoRotacion
  claveExterna : Int
  claveInterna : Int
deriving DecidableEq, Repr

/-- `AVLTree.rotacion_derecha`: right rotation at `y`.  Reads `y.izquierda`
unconditionally (`none` models the `AttributeError` when it is absent);
notifies the observer, then updates `y.altura` before `x.altura`. -/
def rotacion_derecha : NodoAVL → Option (EventoRotacion × NodoAVL)
  | .nil => none
  | .nodo ry _ iy dy =>
    match iy with
    | .nil => none
    | .nodo rx _ ix dx =>
      let ev : EventoRotacion := ⟨.derecha, ry.clave, rx.clave⟩
      let y2 := nodoConAltura ry dx dy
      some (ev, nodoConAltura rx ix y2)

/-- `AVLTree.rotacion_izquierda`: left rotation at `x`.  Reads `x.derecha`
unconditionally; updates `x.altura` before `y.altura`. -/
def rotacion_izquierda : NodoAVL → Option (EventoRotacion × NodoAVL)
  | .nil => none
  | .nodo rx _ ix dx =>
    match dx with
    | .nil => none
    | .nodo ry _ iy dy =>
      let ev : EventoRotacion := ⟨.izquierda, rx.clave, ry.clave⟩
      let x2 := nodoConAltura rx ix iy
      some (ev, nodoConAltura ry x2 dy)

/-- The rebalancing dispatch at the end of `AVLTree._insertar`
(lines 242-264): compute the stored balance, then resolve the four cases,
comparing the inserted key with the root key of the relevant child
(dereferenced unconditionally once the balance guard holds). -/
def balancearInsercion : NodoAVL → Int → Option (NodoAVL × List EventoRotacion)
  | .nil, _ => some (.nil, [])
  | .nodo rn h i d, clave =>
    if obtener_balance (.nodo rn h i d) > 1 then
      match i with
      | .nil => none
      | .nodo ri _ _ _ =>
        if clave < ri.clave then
          match rotacion_derecha (.nodo rn h i d) with
          | none => none
          | some (ev, t2) => some (t2, [ev])
        else if clave > ri.clave then
          match rotacion_izquierda i with
          | none => none
          | some (ev1, i2) =>
            match rotacion_derecha (.nodo rn h i2 d) with
            | none => none
            | some (ev2, t2) => some (t2, [ev1, ev2])
        else some (.nodo rn h i d, [])
    else if obtener_balance (.nodo rn h i d) < -1 then
      match d with
      | .nil => none
      | .nodo rd _ _ _ =>
        if clave > rd.clave then
          match rotacion_izquierda (.nodo rn h i d) with
          | none => none
          | some (ev, t2) => some (t2, [ev])
        else if clave < rd.clave then
          match rotacion_derecha d with
          | none => none
          | some (ev1, d2) =>
            match rotacion_izquierda (.nodo rn h i d2) with
            | none => none
            | some (ev2, t2) => some (t2, [ev1, ev2])
        else some (.nodo rn h i d, [])
    else some (.nodo rn h i d, [])

/-- `AVLTree._insertar`: recursive BST insert, height update and
rebalancing.  On an equal key it overwrites `nombre`, `cantidad`, `precio`
and `categoria` in place and returns without structural change. -/
def insertarNodo : NodoAVL → Registro → Option (NodoAVL × List EventoRotacion)
  | .nil, r => some (.nodo r 1 .nil .nil, [])
  | .nodo rn h i d, r =>
    if r.clave < rn.clave then
      match insertarNodo i r with
      | none => none
      | some (i2, evs) =>
        match balancearInsercion (nodoConAltura rn i2 d) r.clave with
        | none => none
        | some (t2, evs2) => some (t2, evs ++ evs2)
    else if r.clave > rn.clave then
      match insertarNodo d r with
      | none => none
      | some (d2, evs) =>
        match balancearInsercion (nodoConAltura rn i d2) r.clave with
        | none => none
        | some (t2, evs2) => some (t2, evs ++ evs2)
    else
      some (.nodo ⟨rn.clave, r.nombre, r.cantidad, r.precio, r.categoria⟩ h i d, [])

/-- `AVLTree._buscar`: recursive descent by key comparison, appending each
visited key to the accumulated path. -/
def buscarNodo : NodoAVL → Int → List Int → Option Registro × List Int
  | .nil, _, camino => (none, camino)
  | .nodo r _ i d, clave, camino =>
    let camino2 := camino ++ [r.clave]
    if clave = r.clave then (some r, camino2)
    else if clave < r.clave then buscarNodo i clave camino2
    else buscarNodo d clave camino2

/-- `AVLTree.buscar`: search from the root with an empty path. -/
def buscar (raiz : NodoAVL) (clave : Int) : Option Registro × List Int :=
  buscarNodo raiz clave []

/-- Outcome of the public `AVLTree.insertar`: the `ValueError` raised by the
preliminary duplicate check, a crash inside `_insertar`, or the new root
plus the rotation notifications emitted. -/
inductive ResultadoInsercion where
  | claveDuplicada : ResultadoInsercion
  | caida : ResultadoInsercion
  | exito (raiz : NodoAVL) (eventos : List EventoRotacion) : ResultadoInsercion
deriving DecidableEq, Repr

/-- `AVLTree.insertar`: raise on a key the preliminary `buscar` finds,
otherwise delegate to `_insertar` and replace the root. -/
def insertar (raiz : NodoAVL) (r : Registro) : ResultadoInsercion :=
  if (buscar raiz r.clave).1.isSome then .claveDuplicada
  else
    match insertarNodo raiz r with
    | none => .caida
    | some (t2, evs) => .exito t2 evs

/-- `AVLTree.actualizar_producto`'s inner `_actualizar_recursivo`: descend
by key; on a match overwrite only the supplied quantity/price and answer
`True`; on falling off the tree answer `None`. -/
def actualizarRecursivo (clave : Int) (nuevaCantidad nuevoPrecio : Option Int) :
    NodoAVL → Option Bool × NodoAVL
  | .nil => (none, .nil)
  | .nodo r h i d =>
    if clave = r.clave then
      let c2 := match nuevaCantidad with | some c => c | none => r.cantidad
      let p2 := match nuevoPrecio with | some p => p | none => r.precio
      (some true, .nodo ⟨r.clave, r.nombre, c2, p2, r.categoria⟩ h i d)
    else if clave < r.clave then
      let res := actualizarRecursivo clave nuevaCantidad nuevoPrecio i
      (res.1, .nodo r h res.2 d)
    else
      let res := actualizarRecursivo clave nuevaCantidad nuevoPrecio d
      (res.1, .nodo r h i res.2)

/-- `AVLTree.actualizar_producto`: run the recursive update from the root. -/
def actualizar_producto (raiz : NodoAVL) (clave : Int)
    (nuevaCantidad nuevoPrecio : Option Int) : Option Bool × NodoAVL :=
  actualizarRecursivo clave nuevaCantidad nuevoPrecio raiz

/-- `AVLTree.min_valor_nodo`: leftmost record of a subtree; `none` models
the `AttributeError` of calling it on an absent node. -/
def min_valor_nodo : NodoAVL → Option Registro
  | .nil => none
  | .nodo r _ .nil _ => some r
  | .nodo _ _ (.nodo r2 h2 i2 d2) _ => min_valor_nodo (.nodo r2 h2 i2 d2)

/-- The rebalancing dispatch at the end of `AVLTree._eliminar`
(lines 360-389): same four cases, but dispatched on the sign of the
relevant child's stored balance instead of an inserted key. -/
def balancearEliminacion : NodoAVL → Option NodoAVL
  | .nil => some .nil
  | .nodo rn h i d =>
    if obtener_balance (.nodo rn h i d) > 1 then
      if obtener_balance i ≥ 0 then
        match rotacion_derecha (.nodo rn h i d) with
        | none => none
        | some (_, t2) => some t2
      else
        match rotacion_izquierda i with
        | none => none
        | some (_, i2) =>
          match rotacion_derecha (.nodo rn h i2 d) with
          | none => none
          | some (_, t2) => some t2
    else if obtener_balance (.nodo rn h i d) < -1 then
      if obtener_balance d ≤ 0 then
        match rotacion_izquierda (.nodo rn h i d) with
        | none => none
        | some (_, t2) => some t2
      else
        match rotacion_derecha d with
        | none => none
        | some (_, d2) =>
          match rotacion_izquierda (.nodo rn h i d2) with
          | none => none
          | some (_, t2) => some t2
    else some (.nodo rn h i d)

/-- `AVLTree._eliminar`: recursive BST delete.  Zero/one-child nodes are
spliced out by an early return (no height update, no rebalance); a
two-child node receives its in-order successor's full payload, then the
successor's key is deleted from the right subtree; the unwind updates the
height and rebalances. -/
def eliminarNodo : NodoAVL → Int → Option NodoAVL
  | .nil, _ => some .nil
  | .nodo rn h i d, clave =>
    if clave < rn.clave then
      match eliminarNodo i clave with
      | none => none
      | some i2 => balancearEliminacion (nodoConAltura rn i2 d)
    else if rn.clave < clave then
      match eliminarNodo d clave with
      | none => none
      | some d2 => balancearEliminacion (nodoConAltura rn i d2)
    else
      match i, d with
      | .nil, _ => some d
      | .nodo ri hi ii di, .nil => some (.nodo ri hi ii di)
      | .nodo ri hi ii di, .nodo rd hd id2 dd =>
        match min_valor_nodo (.nodo rd hd id2 dd) with
        | none => none
        | some temp =>
          match eliminarNodo (.nodo rd hd id2 dd) temp.clave with
          | none => none
          | some d2 =>
            balancearEliminacion (nodoConAltura temp (.nodo ri hi ii di) d2)

/-- `AVLTree.eliminar`: delete from the root (absence of the key is not an
error; the new root replaces the old one). -/
def eliminar (raiz : NodoAVL) (clave : Int) : Option NodoAVL :=
  eliminarNodo raiz clave

/-- `AVLTree.in_order_traversal`: every record, left subtree first, then
the node, then the right subtree. -/
def in_order_traversal : NodoAVL → List Registro
  | .nil => []
  | .nodo r _ i d => in_order_traversal i ++ r :: in_order_traversal d

/-- The in-order key sequence of a tree. -/
def claves (t : NodoAVL) : List Int :=
  (in_order_traversal t).map Registro.clave

/-- `AVLTree._buscar_por_rango_precios`: append the visited key, keep the
node's record when its price is inside `[precio_min, precio_max]`, descend
left only when `precio_min < nodo.precio` and right only when
`precio_max > nodo.precio`. -/
def buscar_por_rango_precios : NodoAVL → Int → Int → List Registro × List Int
  | .nil, _, _ => ([], [])
  | .nodo r _ i d, pmin, pmax =>
    let propio := if pmin ≤ r.precio ∧ r.precio ≤ pmax then [r] else []
    let resI :=
      if pmin < r.precio then buscar_por_rango_precios i pmin pmax else ([], [])
    let resD :=
      if pmax > r.precio then buscar_por_rango_precios d pmin pmax else ([], [])
    (propio ++ resI.1 ++ resD.1, r.clave :: (resI.2 ++ resD.2))

/-- The fixed category enumeration accepted by `buscar_por_categoria`. -/
def categoriasValidas : List String :=
  ["Hogar", "Cocina", "Electrodomesticos", "Deportes"]

/-- `AVLTree._buscar_por_categoria_recursivo`: full traversal appending the
visited key on entry, collecting exact category matches in in-order
position. -/
def buscarPorCategoriaRec : NodoAVL → String → List Registro × List Int
  | .nil, _ => ([], [])
  | .nodo r _ i d, cat =>
    let resI := buscarPorCategoriaRec i cat
    let propio := if r.categoria = cat then [r] else []
    let resD := buscarPorCategoriaRec d cat
    (resI.1 ++ propio ++ resD.1, r.clave :: (resI.2 ++ resD.2))

/-- `AVLTree.buscar_por_categoria`: reject a category outside the fixed
enumeration with a `ValueError` (`none`), otherwise collect matches and
sort them by key (`sorted(resultados, key=clave)`, a stable merge sort). -/
def buscar_por_categoria (raiz : NodoAVL) (cat : String) :
    Option (List Registro × List Int) :=
  if cat ∈ categoriasValidas then
    let res := buscarPorCategoriaRec raiz cat
    some (res.1.mergeSort (fun a b => decide (a.clave ≤ b.clave)), res.2)
  else none

/-- Outcome of `AVLTree.cargar_desde_json` on an already-parsed record
sequence: success, the `ValueError` raised by `insertar` on a duplicate
key, or a crash. -/
inductive ResultadoCarga where
  | exito (raiz : NodoAVL) : ResultadoCarga
  | claveDuplicada : ResultadoCarga
  | caida : ResultadoCarga
deriving DecidableEq, Repr

/-- `AVLTree.cargar_desde_json`: call the public `insertar` once per record
in sequence; any exception propagates immediately. -/
def cargarLista : NodoAVL → List Registro → ResultadoCarga
  | t, [] => .exito t
  | t, r :: rs =>
    match insertar t r with
    | .claveDuplicada => .claveDuplicada
    | .caida => .caida
    | .exito t2 _ => cargarLista t2 rs

/-- `AVLTree.guardar_en_json`: the record sequence written to the snapshot
is exactly the in-order traversal. -/
def guardar (raiz : NodoAVL) : List Registro :=
  in_order_traversal raiz

/-- One public mutating call, as issued by the GUI collaborator. -/
inductive Operacion where
  | inserta (r : Registro) : Operacion
  | elimina (clave : Int) : Operacion
deriving DecidableEq, Repr

/-- One public mutation step on the engine state: a duplicate-key
`ValueError` leaves the tree untouched (the caller may continue); a crash
(`none`) aborts. -/
def paso (t : NodoAVL) : Operacion → Option NodoAVL
  | .inserta r =>
    match insertar t r with
    | .claveDuplicada => some t
    | .caida => none
    | .exito t2 _ => some t2
  | .elimina c => eliminarNodo t c

/-- Run a sequence of public mutations from a starting state. -/
def ejecutar : NodoAVL → List Operacion → Option NodoAVL
  | t, [] => some t
  | t, op :: ops =>
    match paso t op with
    | none => none
    | some t2 => ejecutar t2 ops

/-- Real (recomputed) height of a subtree, the reference for invariants I2
and I3. -/
def alturaReal : NodoAVL → Nat
  | .nil => 0
  | .nodo _ _ i d => 1 + max (alturaReal i) (alturaReal d)

/-- Invariant I1 (BST key order): at every node all left-subtree keys are
strictly smaller and all right-subtree keys strictly larger than the
node's key. -/
def ordenBusqueda : NodoAVL → Prop
  | .nil => True
  | .nodo r _ i d =>
    (∀ k ∈ claves i, k < r.clave) ∧ (∀ k ∈ claves d, r.clave < k) ∧
      ordenBusqueda i ∧ ordenBusqueda d

/-- Invariant I2 (AVL balance): real subtree heights differ by at most one
at every node. -/
def equilibrado : NodoAVL → Prop
  | .nil => True
  | .nodo _ _ i d =>
    (alturaReal i : Int) - (alturaReal d : Int) ≤ 1 ∧
      (alturaReal d : Int) - (alturaReal i : Int) ≤ 1 ∧
      equilibrado i ∧ equilibrado d

/-- Invariant I3 (height correctness): every stored height equals
`1 + max(height(left), height(right))` with absent children of height 0. -/
def alturasCorrectas : NodoAVL → Prop
  | .nil => True
  | .nodo _ h i d =>
    h = 1 + max (alturaReal i) (alturaReal d) ∧
      alturasCorrectas i ∧ alturasCorrectas d

/-- All three data-model invariants together. -/
def esAVL (t : NodoAVL) : Prop :=
  ordenBusqueda t ∧ equilibrado t ∧ alturasCorrectas t

instance decOrdenBusqueda : (t : NodoAVL) → Decidable (ordenBusqueda t)
  | .nil => .isTrue trivial
  | .nodo r h i d =>
    haveI := decOrdenBusqueda i
    haveI := decOrdenBusqueda d
    inferInstanceAs (Decidable (_ ∧ _ ∧ _ ∧ _))

instance decEquilibrado : (t : NodoAVL) → Decidable (equilibrado t)
  | .nil => .isTrue trivial
  | .nodo r h i d =>
    haveI := decEquilibrado i
    haveI := decEquilibrado d
    inferInstanceAs (Decidable (_ ∧ _ ∧ _ ∧ _))

instance decAlturasCorrectas : (t : NodoAVL) → Decidable (alturasCorrectas t)
  | .nil => .isTrue trivial
  | .nodo r h i d =>
    haveI := decAlturasCorrectas i
    haveI := decAlturasCorrectas d
    inferInstanceAs (Decidable (_ ∧ _ ∧ _))

instance decEsAVL (t : NodoAVL) : Decidable (esAVL t) :=
  inferInstanceAs (Decidable (_ ∧ _ ∧ _))

/-- Key at the root (0 for the empty tree; only used under a non-emptiness
hypothesis). -/
def raizClave : NodoAVL → Int
  | .nil => 0
  | .nodo r _ _ _ => r.clave

/-- Real-height balance factor. -/
def balanceReal : NodoAVL → Int
  | .nil => 0
  | .nodo _ _ i d => (alturaReal i : Int) - (alturaReal d : Int)

/-- Sorted insertion into the in-order record sequence: the list-level
specification of `_insertar` (the equal-key case overwrites the payload in
place, keeping the stored key). -/
def insertarOrden (r : Registro) : List Registro → List Registro
  | [] => [r]
  | x :: xs =>
    if r.clave < x.clave then r :: x :: xs
    else if x.clave < r.clave then x :: insertarOrden r xs
    else ⟨x.clave, r.nombre, r.cantidad, r.precio, r.categoria⟩ :: xs

/-- Removal of the first record with a given key: the list-level
specification of `_eliminar`. -/
def borrarOrden (clave : Int) : List Registro → List Registro
  | [] => []
  | x :: xs => if x.clave = clave then xs else x :: borrarOrden clave xs

/-- Apply a payload transformation at every node, keeping shape and stored
heights: the frame specification of `actualizar_producto`. -/
def mapRegistros (f : Registro → Registro) : NodoAVL → NodoAVL
  | .nil => .nil
  | .nodo r h i d => .nodo (f r) h (mapRegistros f i) (mapRegistros f d)

/-- The field overwrite performed by `actualizar_producto` on the matched
record. -/
def actualizaCampos (r : Registro) (nuevaCantidad nuevoPrecio : Option Int) :
    Registro :=
  ⟨r.clave, r.nombre,
   match nuevaCantidad with | some c => c | none => r.cantidad,
   match nuevoPrecio with | some p => p | none => r.precio,
   r.categoria⟩

/-- Strict price growth along the key order: under this hypothesis the
price-range pruning of `_buscar_por_rango_precios` is lossless. -/
def preciosCrecientes (t : NodoAVL) : Prop :=
  (in_order_traversal t).Pairwise (fun a b => a.precio < b.precio)

instance decPreciosCrecientes (t : NodoAVL) : Decidable (preciosCrecientes t) :=
  decidable_of_iff
    ((in_order_traversal t).Pairwise
      (fun a b : Registro => a.precio < b.precio)) Iff.rfl

/-! ### Basic lemmas about the embedding -/

@[simp] theorem in_order_nil : in_order_traversal .nil = [] := rfl

@[simp] theorem in_order_nodo (r : Registro) (h : Nat) (i d : NodoAVL) :
    in_order_traversal (.nodo r h i d) =
      in_order_traversal i ++ r :: in_order_traversal d := rfl

@[simp] theorem claves_nil : claves .nil = [] := rfl

@[simp] theorem claves_nodo (r : Registro) (h : Nat) (i d : NodoAVL) :
    claves (.nodo r h i d) = claves i ++ r.clave :: claves d := by
  simp [claves]

@[simp] theorem alturaReal_nil : alturaReal .nil = 0 := rfl

@[simp] theorem alturaReal_nodo (r : Registro) (h : Nat) (i d : NodoAVL) :
    alturaReal (.nodo r h i d) = 1 + max (alturaReal i) (alturaReal d) := rfl

@[simp] theorem obtener_altura_nil : obtener_altura .nil = 0 := rfl

@[simp] theorem obtener_altura_nodo (r : Registro) (h : Nat) (i d : NodoAVL) :
    obtener_altura (.nodo r h i d) = h := rfl

@[simp] theorem ordenBusqueda_nil : ordenBusqueda .nil := trivial

theorem ordenBusqueda_nodo {r : Registro} {h : Nat} {i d : NodoAVL} :
    ordenBusqueda (.nodo r h i d) ↔
      (∀ k ∈ claves i, k < r.clave) ∧ (∀ k ∈ claves d, r.clave < k) ∧
        ordenBusqueda i ∧ ordenBusqueda d := Iff.rfl

@[simp] theorem equilibrado_nil : equilibrado .nil := trivial

theorem equilibrado_nodo {r : Registro} {h : Nat} {i d : NodoAVL} :
    equilibrado (.nodo r h i d) ↔
      (alturaReal i : Int) - (alturaReal d : Int) ≤ 1 ∧
        (alturaReal d : Int) - (alturaReal i : Int) ≤ 1 ∧
        equilibrado i ∧ equilibrado d := Iff.rfl

@[simp] theorem alturasCorrectas_nil : alturasCorrectas .nil := trivial

theorem alturasCorrectas_nodo {r : Registro} {h : Nat} {i d : NodoAVL} :
    alturasCorrectas (.nodo r h i d) ↔
      h = 1 + max (alturaReal i) (alturaReal d) ∧
        alturasCorrectas i ∧ alturasCorrectas d := Iff.rfl

theorem esAVL_nil : esAVL .nil := ⟨trivial, trivial, trivial⟩

theorem obtener_altura_eq {t : NodoAVL} (h : alturasCorrectas t) :
    obtener_altura t = alturaReal t := by
  cases t with
  | nil => rfl
  | nodo r ht i d => exact h.1

@[simp] theorem nodoConAltura_eq (r : Registro) (i d : NodoAVL) :
    nodoConAltura r i d =
      .nodo r (1 + max (obtener_altura i) (obtener_altura d)) i d := rfl

theorem alturasCorrectas_nodoConAltura {i d : NodoAVL} (r : Registro)
    (hi : alturasCorrectas i) (hd : alturasCorrectas d) :
    alturasCorrectas (nodoConAltura r i d) := by
  refine ⟨?_, hi, hd⟩
  simp [obtener_altura_eq hi, obtener_altura_eq hd]

theorem mem_claves_nodo {k : Int} {r : Registro} {h : Nat} {i d : NodoAVL} :
    k ∈ claves (.nodo r h i d) ↔ k ∈ claves i ∨ k = r.clave ∨ k ∈ claves d := by
  simp

theorem clave_mem_claves {r : Registro} {t : NodoAVL}
    (h : r ∈ in_order_traversal t) : r.clave ∈ claves t :=
  List.mem_map_of_mem Registro.clave h

theorem raizClave_mem {t : NodoAVL} (h : t ≠ .nil) : raizClave t ∈ claves t := by
  cases t with
  | nil => exact absurd rfl h
  | nodo r ht i d => simp [raizClave]

theorem pairwise_claves {t : NodoAVL} (h : ordenBusqueda t) :
    (claves t).Pairwise (· < ·) := by
  induction t with
  | nil => simp
  | nodo r ht i d ihi ihd =>
    obtain ⟨h1, h2, h3, h4⟩ := ordenBusqueda_nodo.mp h
    simp only [claves_nodo]
    rw [List.pairwise_append]
    refine ⟨ihi h3, (List.pairwise_cons).mpr ⟨h2, ihd h4⟩, ?_⟩
    intro a ha b hb
    rcases List.mem_cons.mp hb with hb | hb
    · exact hb ▸ h1 a ha
    · exact lt_trans (h1 a ha) (h2 b hb)

theorem nodup_claves {t : NodoAVL} (h : ordenBusqueda t) : (claves t).Nodup :=
  (pairwise_claves h).imp ne_of_lt

/-! ### Lemmas about the list-level specifications -/

theorem mem_claves_insertarOrden {k : Int} (r : Registro) (l : List Registro) :
    k ∈ (insertarOrden r l).map Registro.clave ↔
      k = r.clave ∨ k ∈ l.map Registro.clave := by
  induction l with
  | nil => simp [insertarOrden]
  | cons x xs ih =>
    by_cases h1 : r.clave < x.clave
    · simp [insertarOrden, h1]
    · by_cases h2 : x.clave < r.clave
      · simp only [insertarOrden, if_neg h1, if_pos h2, List.map_cons,
          List.mem_cons, ih]
        tauto
      · have : r.clave = x.clave := le_antisymm (not_lt.mp h2) (not_lt.mp h1)
        simp only [insertarOrden, if_neg h1, if_neg h2, List.map_cons,
          List.mem_cons]
        rw [this]
        tauto

theorem insertarOrden_append_lt (r x : Registro) (l1 l2 : List Registro)
    (h : r.clave < x.clave) :
    insertarOrden r (l1 ++ x :: l2) = insertarOrden r l1 ++ x :: l2 := by
  induction l1 with
  | nil => simp [insertarOrden, h]
  | cons y ys ih =>
    by_cases h1 : r.clave < y.clave
    · simp [insertarOrden, h1]
    · by_cases h2 : y.clave < r.clave
      · simp [insertarOrden, h1, h2, ih]
      · simp [insertarOrden, h1, h2]

theorem insertarOrden_append_gt (r x : Registro) (l1 l2 : List Registro)
    (h : ∀ y ∈ l1, y.clave < r.clave) (hx : x.clave < r.clave) :
    insertarOrden r (l1 ++ x :: l2) = l1 ++ x :: insertarOrden r l2 := by
  induction l1 with
  | nil =>
    have h1 : ¬ r.clave < x.clave := not_lt.mpr (le_of_lt hx)
    simp [insertarOrden, h1, hx]
  | cons y ys ih =>
    have hy : y.clave < r.clave := h y (List.mem_cons_self y ys)
    have h1 : ¬ r.clave < y.clave := not_lt.mpr (le_of_lt hy)
    simp only [List.cons_append, insertarOrden, if_neg h1, if_pos hy,
      List.cons.injEq, true_and]
    exact ih (fun z hz => h z (List.mem_cons_of_mem y hz))

theorem insertarOrden_all_lt (r : Registro) (l : List Registro)
    (h : ∀ y ∈ l, y.clave < r.clave) :
    insertarOrden r l = l ++ [r] := by
  induction l with
  | nil => rfl
  | cons y ys ih =>
    have hy : y.clave < r.clave := h y (List.mem_cons_self y ys)
    have h1 : ¬ r.clave < y.clave := not_lt.mpr (le_of_lt hy)
    simp only [insertarOrden, if_neg h1, if_pos hy, List.cons_append,
      List.cons.injEq, true_and]
    exact ih (fun z hz => h z (List.mem_cons_of_mem y hz))

theorem borrarOrden_append_not_mem (clave : Int) (l1 l2 : List Registro)
    (h : clave ∉ l1.map Registro.clave) :
    borrarOrden clave (l1 ++ l2) = l1 ++ borrarOrden clave l2 := by
  induction l1 with
  | nil => rfl
  | cons x xs ih =>
    have hx : ¬ x.clave = clave := by
      intro he; exact h (by simp [he])
    simp only [List.cons_append, borrarOrden, if_neg hx, List.cons.injEq,
      true_and]
    exact ih (fun hm => h (by simp at hm ⊢; exact Or.inr hm))

theorem borrarOrden_cons_eq {clave : Int} {x : Registro} (xs : List Registro)
    (h : x.clave = clave) : borrarOrden clave (x :: xs) = xs := by
  simp [borrarOrden, h]

theorem borrarOrden_sublist (clave : Int) (l : List Registro) :
    (borrarOrden clave l).Sublist l := by
  induction l with
  | nil => simp [borrarOrden]
  | cons x xs ih =>
    by_cases h : x.clave = clave
    · simp only [borrarOrden, if_pos h]
      exact (List.sublist_cons_self x xs)
    · simp only [borrarOrden, if_neg h]
      exact ih.cons₂ x

theorem mem_borrarOrden {clave : Int} {l : List Registro} {r : Registro}
    (h : r ∈ borrarOrden clave l) : r ∈ l :=
  (borrarOrden_sublist clave l).mem h

/-! ### Evaluation lemmas for rotations and the insertion rebalance -/

theorem rotacion_derecha_eq (ry : Registro) (hy : Nat) (rx : Registro)
    (hx : Nat) (ix dx dy : NodoAVL) :
    rotacion_derecha (.nodo ry hy (.nodo rx hx ix dx) dy) =
      some (⟨.derecha, ry.clave, rx.clave⟩,
        nodoConAltura rx ix (nodoConAltura ry dx dy)) := rfl

theorem rotacion_izquierda_eq (rx : Registro) (hx : Nat) (ix : NodoAVL)
    (ry : Registro) (hy : Nat) (iy dy : NodoAVL) :
    rotacion_izquierda (.nodo rx hx ix (.nodo ry hy iy dy)) =
      some (⟨.izquierda, rx.clave, ry.clave⟩,
        nodoConAltura ry (nodoConAltura rx ix iy) dy) := rfl

theorem balancearInsercion_sin (rn : Registro) (h : Nat) (i d : NodoAVL)
    (clave : Int)
    (h1 : obtener_balance (.nodo rn h i d) ≤ 1)
    (h2 : -1 ≤ obtener_balance (.nodo rn h i d)) :
    balancearInsercion (.nodo rn h i d) clave = some (.nodo rn h i d, []) := by
  simp only [balancearInsercion]
  rw [if_neg (by omega), if_neg (by omega)]

theorem balancearInsercion_LL (rn : Registro) (h : Nat) (ri : Registro)
    (hi : Nat) (ii di d : NodoAVL) (clave : Int)
    (hb : obtener_balance (.nodo rn h (.nodo ri hi ii di) d) > 1)
    (hk : clave < ri.clave) :
    balancearInsercion (.nodo rn h (.nodo ri hi ii di) d) clave =
      some (nodoConAltura ri ii (nodoConAltura rn di d),
        [⟨.derecha, rn.clave, ri.clave⟩]) := by
  simp only [balancearInsercion]
  rw [if_pos hb]
  simp only [if_pos hk, rotacion_derecha_eq]

theorem balancearInsercion_LR (rn : Registro) (h : Nat) (ri : Registro)
    (hi : Nat) (ii : NodoAVL) (rdi : Registro) (hdi : Nat) (x y d : NodoAVL)
    (clave : Int)
    (hb : obtener_balance (.nodo rn h (.nodo ri hi ii (.nodo rdi hdi x y)) d) > 1)
    (hk : ri.clave < clave) :
    balancearInsercion (.nodo rn h (.nodo ri hi ii (.nodo rdi hdi x y)) d) clave =
      some (nodoConAltura rdi (nodoConAltura ri ii x) (nodoConAltura rn y d),
        [⟨.izquierda, ri.clave, rdi.clave⟩, ⟨.derecha, rn.clave, rdi.clave⟩]) := by
  simp only [balancearInsercion]
  rw [if_pos hb]
  rw [if_neg (not_lt.mpr (le_of_lt hk)), if_pos hk]
  simp only [rotacion_izquierda_eq]
  simp only [nodoConAltura_eq, rotacion_derecha_eq]

theorem balancearInsercion_RR (rn : Registro) (h : Nat) (i : NodoAVL)
    (rd : Registro) (hd : Nat) (id2 dd : NodoAVL) (clave : Int)
    (hb : obtener_balance (.nodo rn h i (.nodo rd hd id2 dd)) < -1)
    (hk : rd.clave < clave) :
    balancearInsercion (.nodo rn h i (.nodo rd hd id2 dd)) clave =
      some (nodoConAltura rd (nodoConAltura rn i id2) dd,
        [⟨.izquierda, rn.clave, rd.clave⟩]) := by
  simp only [balancearInsercion]
  rw [if_neg (by omega), if_pos hb]
  simp only [if_pos hk, rotacion_izquierda_eq]

theorem balancearInsercion_RL (rn : Registro) (h : Nat) (i : NodoAVL)
    (rd : Registro) (hd : Nat) (rdl : Registro) (hdl : Nat) (x y dd : NodoAVL)
    (clave : Int)
    (hb : obtener_balance (.nodo rn h i (.nodo rd hd (.nodo rdl hdl x y) dd)) < -1)
    (hk : clave < rd.clave) :
    balancearInsercion (.nodo rn h i (.nodo rd hd (.nodo rdl hdl x y) dd)) clave =
      some (nodoConAltura rdl (nodoConAltura rn i x) (nodoConAltura rd y dd),
        [⟨.derecha, rd.clave, rdl.clave⟩, ⟨.izquierda, rn.clave, rdl.clave⟩]) := by
  simp only [balancearInsercion]
  rw [if_neg (by omega), if_pos hb]
  rw [if_neg (not_lt.mpr (le_of_lt hk)), if_pos hk]
  simp only [rotacion_derecha_eq]
  simp only [nodoConAltura_eq, rotacion_izquierda_eq]

/-! ### Assembling and destructing AVL nodes -/

@[simp] theorem alturaReal_nodoConAltura (r : Registro) (i d : NodoAVL) :
    alturaReal (nodoConAltura r i d) = 1 + max (alturaReal i) (alturaReal d) :=
  rfl

theorem esAVL_nodo_iff {r : Registro} {h : Nat} {i d : NodoAVL} :
    esAVL (.nodo r h i d) ↔
      (∀ k ∈ claves i, k < r.clave) ∧ (∀ k ∈ claves d, r.clave < k) ∧
        (alturaReal i : Int) - (alturaReal d : Int) ≤ 1 ∧
        (alturaReal d : Int) - (alturaReal i : Int) ≤ 1 ∧
        h = 1 + max (alturaReal i) (alturaReal d) ∧ esAVL i ∧ esAVL d := by
  simp only [esAVL, ordenBusqueda_nodo, equilibrado_nodo, alturasCorrectas_nodo]
  tauto

theorem esAVL_construir {i d : NodoAVL} (r : Registro)
    (hi : esAVL i) (hd : esAVL d)
    (hb1 : ∀ k ∈ claves i, k < r.clave) (hb2 : ∀ k ∈ claves d, r.clave < k)
    (he1 : (alturaReal i : Int) - (alturaReal d : Int) ≤ 1)
    (he2 : (alturaReal d : Int) - (alturaReal i : Int) ≤ 1) :
    esAVL (nodoConAltura r i d) := by
  rw [nodoConAltura_eq, esAVL_nodo_iff]
  exact ⟨hb1, hb2, he1, he2,
    by rw [obtener_altura_eq hi.2.2, obtener_altura_eq hd.2.2], hi, hd⟩

theorem obtener_balance_nodo (r : Registro) (h : Nat) {i d : NodoAVL}
    (hi : alturasCorrectas i) (hd : alturasCorrectas d) :
    obtener_balance (.nodo r h i d) =
      (alturaReal i : Int) - (alturaReal d : Int) := by
  simp [obtener_balance, obtener_altura_eq hi, obtener_altura_eq hd]

theorem ne_nil_of_alturaReal {t : NodoAVL} (h : alturaReal t ≠ 0) :
    t ≠ .nil := by
  intro he; rw [he] at h; exact h rfl

/-- Main correctness lemma for `_insertar` on a fresh key: it cannot crash,
it preserves the three invariants, its in-order effect is a sorted
insertion, the height grows by at most one, and when the subtree grows and
was non-empty its root key is unchanged and its balance tilts toward the
side that received the key. -/
theorem insertarNodo_spec :
    ∀ (t : NodoAVL) (r : Registro), esAVL t → r.clave ∉ claves t →
    ∃ t2 evs, insertarNodo t r = some (t2, evs) ∧ esAVL t2 ∧
      in_order_traversal t2 = insertarOrden r (in_order_traversal t) ∧
      (alturaReal t2 = alturaReal t ∨ alturaReal t2 = alturaReal t + 1) ∧
      (alturaReal t2 = alturaReal t + 1 → t ≠ .nil →
        raizClave t2 = raizClave t ∧
          (r.clave < raizClave t → balanceReal t2 = 1) ∧
          (raizClave t < r.clave → balanceReal t2 = -1)) := by
  intro t
  induction t with
  | nil =>
    intro r _ _
    refine ⟨.nodo r 1 .nil .nil, [], rfl, ?_, rfl, Or.inr (by simp), ?_⟩
    · rw [esAVL_nodo_iff]
      refine ⟨by simp, by simp, by simp, by simp, by simp, esAVL_nil, esAVL_nil⟩
    · intro _ hne
      exact absurd rfl hne
  | nodo rn h i d ihi ihd =>
    intro r havl hmem
    obtain ⟨hb1, hb2, he1, he2, hh, hAi, hAd⟩ := esAVL_nodo_iff.mp havl
    have hmemi : r.clave ∉ claves i := fun hx => hmem (by simp [hx])
    have hmemd : r.clave ∉ claves d := fun hx => hmem (by simp [hx])
    have hmemn : r.clave ≠ rn.clave := fun hx => hmem (by simp [hx])
    rcases lt_trichotomy r.clave rn.clave with hlt | heq | hgt
    · -- la clave nueva va al subárbol izquierdo
      obtain ⟨i2, evs, hins, hAi2, hord2, halt2, hgrow⟩ := ihi r hAi hmemi
      have hmem2 : ∀ k, k ∈ claves i2 ↔ k = r.clave ∨ k ∈ claves i := by
        intro k
        simp only [claves]
        rw [hord2]
        exact mem_claves_insertarOrden r _
      have hb12 : ∀ k ∈ claves i2, k < rn.clave := by
        intro k hk
        rcases (hmem2 k).mp hk with hk | hk
        · omega
        · exact hb1 k hk
      have hobi2 : obtener_altura i2 = alturaReal i2 := obtener_altura_eq hAi2.2.2
      have hobd : obtener_altura d = alturaReal d := obtener_altura_eq hAd.2.2
      simp only [insertarNodo, hins, if_pos hlt]
      by_cases hcaso : (alturaReal i2 : Int) - (alturaReal d : Int) ≤ 1
      · -- el nodo sigue dentro de tolerancia: sin rotación
        rw [nodoConAltura_eq, balancearInsercion_sin rn _ i2 d r.clave
            (by rw [obtener_balance_nodo rn _ hAi2.2.2 hAd.2.2]; omega)
            (by rw [obtener_balance_nodo rn _ hAi2.2.2 hAd.2.2]; omega)]
        refine ⟨_, evs ++ [], rfl, ?_, ?_, ?_, ?_⟩
        · rw [esAVL_nodo_iff]
          exact ⟨hb12, hb2, by omega, by omega, by rw [hobi2, hobd], hAi2, hAd⟩
        · rw [in_order_nodo, in_order_nodo,
            insertarOrden_append_lt r rn _ _ hlt, hord2]
        · simp only [alturaReal_nodo]
          omega
        · intro hcrec _
          simp only [alturaReal_nodo] at hcrec
          simp only [raizClave, balanceReal, alturaReal_nodo]
          refine ⟨trivial, fun _ => by omega, fun hx => by omega⟩
      · -- el subárbol izquierdo creció hasta balance 2: toca rotar
        have hig : alturaReal i2 = alturaReal d + 2 := by omega
        have hcreci : alturaReal i2 = alturaReal i + 1 := by omega
        have hine : i ≠ .nil := ne_nil_of_alturaReal (by omega)
        obtain ⟨hroot, himp1, himp2⟩ := hgrow hcreci hine
        have hrK : raizClave i ∈ claves i := raizClave_mem hine
        have hrne : r.clave ≠ raizClave i := fun he => hmemi (he ▸ hrK)
        rcases i2 with _ | ⟨ri2, hsi2, ii2, di2⟩
        · simp only [alturaReal_nil] at hig
          omega
        · have hAi2b := esAVL_nodo_iff.mp hAi2
          obtain ⟨g1, g2, g3, g4, g5, gAii2, gAdi2⟩ := hAi2b
          simp only [raizClave] at hroot
          simp only [alturaReal_nodo] at hig hcreci
          rcases lt_or_gt_of_ne hrne with hlt2 | hgt2
          · -- caso Izquierda Izquierda: una rotación a la derecha
            have hbal1 := himp1 hlt2
            simp only [balanceReal] at hbal1
            have hAii2 : alturaReal ii2 = alturaReal d + 1 := by omega
            have hAdi2 : alturaReal di2 = alturaReal d := by omega
            rw [nodoConAltura_eq, balancearInsercion_LL rn _ ri2 hsi2 ii2 di2 d
                r.clave
                (by rw [obtener_balance_nodo rn _ hAi2.2.2 hAd.2.2]
                    simp only [alturaReal_nodo]; omega)
                (hroot ▸ hlt2)]
            refine ⟨_, evs ++ [⟨.derecha, rn.clave, ri2.clave⟩], rfl, ?_, ?_, ?_, ?_⟩
            · refine esAVL_construir ri2 gAii2 ?_ g1 ?_ ?_ ?_
              · refine esAVL_construir rn gAdi2 hAd ?_ hb2 (by omega) (by omega)
                intro k hk
                exact hb12 k (by simp [hk])
              · intro k hk
                have h9 : ri2.clave < rn.clave := by
                  rw [hroot]; exact hb1 _ hrK
                simp only [nodoConAltura_eq, claves_nodo, List.mem_append,
                  List.mem_cons] at hk
                rcases hk with hk | hk | hk
                · exact g2 k hk
                · rw [hk]; exact h9
                · exact lt_trans h9 (hb2 k hk)
              · simp only [alturaReal_nodoConAltura]
                omega
              · simp only [alturaReal_nodoConAltura]
                omega
            · simp only [nodoConAltura_eq, in_order_nodo, List.append_assoc,
                List.cons_append]
              rw [insertarOrden_append_lt r rn _ _ hlt, ← hord2]
              simp only [in_order_nodo, List.append_assoc, List.cons_append]
            · simp only [alturaReal_nodoConAltura, alturaReal_nodo]
              omega
            · intro hcrec _
              exfalso
              simp only [alturaReal_nodoConAltura, alturaReal_nodo] at hcrec
              omega
          · -- caso Izquierda Derecha: rotación doble
            have hbal1 := himp2 hgt2
            simp only [balanceReal] at hbal1
            have hAii2 : alturaReal ii2 = alturaReal d := by omega
            have hAdi2 : alturaReal di2 = alturaReal d + 1 := by omega
            rcases di2 with _ | ⟨rdi, hsdi, xx, yy⟩
            · simp only [alturaReal_nil] at hAdi2
              omega
            · have hAdi2b := esAVL_nodo_iff.mp gAdi2
              obtain ⟨q1, q2, q3, q4, q5, qAxx, qAyy⟩ := hAdi2b
              simp only [alturaReal_nodo] at hAdi2
              have hrdiK : rdi.clave ∈ claves (NodoAVL.nodo rdi hsdi xx yy) := by
                simp
              have hrdi_lt : rdi.clave < rn.clave := by
                have := g2 rdi.clave hrdiK
                have hmem3 := (hmem2 rdi.clave).mp (by simp)
                rcases hmem3 with hx | hx
                · omega
                · exact hb1 _ hx
              rw [nodoConAltura_eq, balancearInsercion_LR rn _ ri2 hsi2 ii2
                  rdi hsdi xx yy d r.clave
                  (by rw [obtener_balance_nodo rn _ hAi2.2.2 hAd.2.2]
                      simp only [alturaReal_nodo]; omega)
                  (hroot ▸ hgt2)]
              refine ⟨_, evs ++ [⟨.izquierda, ri2.clave, rdi.clave⟩,
                ⟨.derecha, rn.clave, rdi.clave⟩], rfl, ?_, ?_, ?_, ?_⟩
              · refine esAVL_construir rdi ?_ ?_ ?_ ?_ ?_ ?_
                · refine esAVL_construir ri2 gAii2 qAxx g1 ?_ (by omega) (by omega)
                  intro k hk
                  exact g2 k (by simp [hk])
                · refine esAVL_construir rn qAyy hAd ?_ hb2 (by omega) (by omega)
                  intro k hk
                  exact hb12 k (by simp [hk])
                · intro k hk
                  simp only [nodoConAltura_eq, claves_nodo, List.mem_append,
                    List.mem_cons] at hk
                  rcases hk with hk | hk | hk
                  · exact lt_trans (g1 k hk) (g2 rdi.clave hrdiK)
                  · rw [hk]
                    exact g2 rdi.clave hrdiK
                  · exact q1 k hk
                · intro k hk
                  simp only [nodoConAltura_eq, claves_nodo, List.mem_append,
                    List.mem_cons] at hk
                  rcases hk with hk | hk | hk
                  · exact q2 k hk
                  · rw [hk]
                    exact hrdi_lt
                  · exact lt_trans hrdi_lt (hb2 k hk)
                · simp only [alturaReal_nodoConAltura]
                  omega
                · simp only [alturaReal_nodoConAltura]
                  omega
              · simp only [nodoConAltura_eq, in_order_nodo, List.append_assoc,
                  List.cons_append]
                rw [insertarOrden_append_lt r rn _ _ hlt, ← hord2]
                simp only [in_order_nodo, List.append_assoc, List.cons_append]
              · simp only [alturaReal_nodoConAltura, alturaReal_nodo]
                omega
              · intro hcrec _
                exfalso
                simp only [alturaReal_nodoConAltura, alturaReal_nodo] at hcrec
                omega
    · exact absurd heq hmemn
    · -- la clave nueva va al subárbol derecho
      obtain ⟨d2, evs, hins, hAd2, hord2, halt2, hgrow⟩ := ihd r hAd hmemd
      have hmem2 : ∀ k, k ∈ claves d2 ↔ k = r.clave ∨ k ∈ claves d := by
        intro k
        simp only [claves]
        rw [hord2]
        exact mem_claves_insertarOrden r _
      have hb22 : ∀ k ∈ claves d2, rn.clave < k := by
        intro k hk
        rcases (hmem2 k).mp hk with hk | hk
        · omega
        · exact hb2 k hk
      have hobd2 : obtener_altura d2 = alturaReal d2 := obtener_altura_eq hAd2.2.2
      have hobi : obtener_altura i = alturaReal i := obtener_altura_eq hAi.2.2
      simp only [insertarNodo, hins, if_pos hgt,
        if_neg (show ¬ r.clave < rn.clave by omega)]
      by_cases hcaso : (alturaReal d2 : Int) - (alturaReal i : Int) ≤ 1
      · -- sin rotación
        rw [nodoConAltura_eq, balancearInsercion_sin rn _ i d2 r.clave
            (by rw [obtener_balance_nodo rn _ hAi.2.2 hAd2.2.2]; omega)
            (by rw [obtener_balance_nodo rn _ hAi.2.2 hAd2.2.2]; omega)]
        refine ⟨_, evs ++ [], rfl, ?_, ?_, ?_, ?_⟩
        · rw [esAVL_nodo_iff]
          exact ⟨hb1, hb22, by omega, by omega, by rw [hobi, hobd2], hAi, hAd2⟩
        · rw [in_order_nodo, in_order_nodo,
            insertarOrden_append_gt r rn _ _
              (fun y hy => lt_trans (hb1 y.clave (clave_mem_claves hy)) hgt) hgt, hord2]
        · simp only [alturaReal_nodo]
          omega
        · intro hcrec _
          simp only [alturaReal_nodo] at hcrec
          simp only [raizClave, balanceReal, alturaReal_nodo]
          refine ⟨trivial, fun hx => by omega, fun _ => by omega⟩
      · -- el subárbol derecho creció hasta balance -2: toca rotar
        have hig : alturaReal d2 = alturaReal i + 2 := by omega
        have hcrecd : alturaReal d2 = alturaReal d + 1 := by omega
        have hdne : d ≠ .nil := ne_nil_of_alturaReal (by omega)
        obtain ⟨hroot, himp1, himp2⟩ := hgrow hcrecd hdne
        have hrK : raizClave d ∈ claves d := raizClave_mem hdne
        have hrne : r.clave ≠ raizClave d := fun he => hmemd (he ▸ hrK)
        rcases d2 with _ | ⟨rd2, hsd2, id2, dd2⟩
        · simp only [alturaReal_nil] at hig
          omega
        · have hAd2b := esAVL_nodo_iff.mp hAd2
          obtain ⟨g1, g2, g3, g4, g5, gAid2, gAdd2⟩ := hAd2b
          simp only [raizClave] at hroot
          simp only [alturaReal_nodo] at hig hcrecd
          rcases lt_or_gt_of_ne hrne with hlt2 | hgt2
          · -- caso Derecha Izquierda: rotación doble
            have hbal1 := himp1 hlt2
            simp only [balanceReal] at hbal1
            have hAid2 : alturaReal id2 = alturaReal i + 1 := by omega
            have hAdd2 : alturaReal dd2 = alturaReal i := by omega
            rcases id2 with _ | ⟨rdl, hsdl, xx, yy⟩
            · simp only [alturaReal_nil] at hAid2
              omega
            · have hAid2b := esAVL_nodo_iff.mp gAid2
              obtain ⟨q1, q2, q3, q4, q5, qAxx, qAyy⟩ := hAid2b
              simp only [alturaReal_nodo] at hAid2
              have hrdlK : rdl.clave ∈ claves (NodoAVL.nodo rdl hsdl xx yy) := by
                simp
              have hrdl_gt : rn.clave < rdl.clave := by
                have := g1 rdl.clave hrdlK
                have hmem3 := (hmem2 rdl.clave).mp (by simp)
                rcases hmem3 with hx | hx
                · omega
                · exact hb2 _ hx
              rw [nodoConAltura_eq, balancearInsercion_RL rn _ i rd2 hsd2
                  rdl hsdl xx yy dd2 r.clave
                  (by rw [obtener_balance_nodo rn _ hAi.2.2 hAd2.2.2]
                      simp only [alturaReal_nodo]; omega)
                  (hroot ▸ hlt2)]
              refine ⟨_, evs ++ [⟨.derecha, rd2.clave, rdl.clave⟩,
                ⟨.izquierda, rn.clave, rdl.clave⟩], rfl, ?_, ?_, ?_, ?_⟩
              · refine esAVL_construir rdl ?_ ?_ ?_ ?_ ?_ ?_
                · refine esAVL_construir rn hAi qAxx hb1 ?_ (by omega) (by omega)
                  intro k hk
                  exact hb22 k (by simp [hk])
                · refine esAVL_construir rd2 qAyy gAdd2 ?_ g2 (by omega) (by omega)
                  intro k hk
                  exact g1 k (by simp [hk])
                · intro k hk
                  simp only [nodoConAltura_eq, claves_nodo, List.mem_append,
                    List.mem_cons] at hk
                  rcases hk with hk | hk | hk
                  · exact lt_trans (hb1 k hk) hrdl_gt
                  · rw [hk]
                    exact hrdl_gt
                  · exact q1 k hk
                · intro k hk
                  simp only [nodoConAltura_eq, claves_nodo, List.mem_append,
                    List.mem_cons] at hk
                  rcases hk with hk | hk | hk
                  · exact q2 k hk
                  · rw [hk]
                    exact g1 rdl.clave hrdlK
                  · exact lt_trans (g1 rdl.clave hrdlK) (g2 k hk)
                · simp only [alturaReal_nodoConAltura]
                  omega
                · simp only [alturaReal_nodoConAltura]
                  omega
              · simp only [nodoConAltura_eq, in_order_nodo, List.append_assoc,
                  List.cons_append]
                rw [insertarOrden_append_gt r rn _ _
                  (fun y hy => lt_trans (hb1 y.clave (clave_mem_claves hy)) hgt) hgt,
                  ← hord2]
                simp only [in_order_nodo, List.append_assoc, List.cons_append]
              · simp only [alturaReal_nodoConAltura, alturaReal_nodo]
                omega
              · intro hcrec _
                exfalso
                simp only [alturaReal_nodoConAltura, alturaReal_nodo] at hcrec
                omega
          · -- caso Derecha Derecha: una rotación a la izquierda
            have hbal1 := himp2 hgt2
            simp only [balanceReal] at hbal1
            have hAid2 : alturaReal id2 = alturaReal i := by omega
            have hAdd2 : alturaReal dd2 = alturaReal i + 1 := by omega
            rw [nodoConAltura_eq, balancearInsercion_RR rn _ i rd2 hsd2 id2 dd2
                r.clave
                (by rw [obtener_balance_nodo rn _ hAi.2.2 hAd2.2.2]
                    simp only [alturaReal_nodo]; omega)
                (hroot ▸ hgt2)]
            refine ⟨_, evs ++ [⟨.izquierda, rn.clave, rd2.clave⟩], rfl, ?_, ?_, ?_, ?_⟩
            · refine esAVL_construir rd2 ?_ gAdd2 ?_ g2 ?_ ?_
              · refine esAVL_construir rn hAi gAid2 hb1 ?_ (by omega) (by omega)
                intro k hk
                exact hb22 k (by simp [hk])
              · intro k hk
                have h9 : rn.clave < rd2.clave := by
                  rw [hroot]; exact hb2 _ hrK
                simp only [nodoConAltura_eq, claves_nodo, List.mem_append,
                  List.mem_cons] at hk
                rcases hk with hk | hk | hk
                · exact lt_trans (hb1 k hk) h9
                · rw [hk]; exact h9
                · exact g1 k hk
              · simp only [alturaReal_nodoConAltura]
                omega
              · simp only [alturaReal_nodoConAltura]
                omega
            · simp only [nodoConAltura_eq, in_order_nodo, List.append_assoc,
                List.cons_append]
              rw [insertarOrden_append_gt r rn _ _
                (fun y hy => lt_trans (hb1 y.clave (clave_mem_claves hy)) hgt) hgt,
                ← hord2]
              simp only [in_order_nodo, List.append_assoc, List.cons_append]
            · simp only [alturaReal_nodoConAltura, alturaReal_nodo]
              omega
            · intro hcrec _
              exfalso
              simp only [alturaReal_nodoConAltura, alturaReal_nodo] at hcrec
              omega

/-! ### Search correctness -/

theorem buscarNodo_encontrado :
    ∀ (t : NodoAVL) (c : Int), ordenBusqueda t → c ∈ claves t →
    ∀ acc : List Int, ∃ r p0, buscarNodo t c acc = (some r, acc ++ p0 ++ [c]) ∧
      r ∈ in_order_traversal t ∧ r.clave = c := by
  intro t
  induction t with
  | nil => intro c _ hc; simp at hc
  | nodo rn h i d ihi ihd =>
    intro c hord hc acc
    obtain ⟨hb1, hb2, hoi, hod⟩ := ordenBusqueda_nodo.mp hord
    rcases lt_trichotomy c rn.clave with hlt | heq | hgt
    · have hci : c ∈ claves i := by
        rcases mem_claves_nodo.mp hc with hx | hx | hx
        · exact hx
        · omega
        · exact absurd (hb2 c hx) (by omega)
      obtain ⟨r, p0, hp, hmem, hclave⟩ := ihi c hoi hci (acc ++ [rn.clave])
      refine ⟨r, rn.clave :: p0, ?_, by simp [hmem], hclave⟩
      simp only [buscarNodo, if_neg (by omega : ¬ c = rn.clave), if_pos hlt]
      rw [hp]
      simp
    · refine ⟨rn, [], ?_, by simp, heq.symm⟩
      simp only [buscarNodo, if_pos heq]
      simp [heq]
    · have hcd : c ∈ claves d := by
        rcases mem_claves_nodo.mp hc with hx | hx | hx
        · exact absurd (hb1 c hx) (by omega)
        · omega
        · exact hx
      obtain ⟨r, p0, hp, hmem, hclave⟩ := ihd c hod hcd (acc ++ [rn.clave])
      refine ⟨r, rn.clave :: p0, ?_, by simp [hmem], hclave⟩
      simp only [buscarNodo, if_neg (by omega : ¬ c = rn.clave),
        if_neg (by omega : ¬ c < rn.clave)]
      rw [hp]
      simp

theorem buscarNodo_ausente :
    ∀ (t : NodoAVL) (c : Int), c ∉ claves t →
    ∀ acc : List Int, ∃ p, buscarNodo t c acc = (none, acc ++ p) ∧
      (t ≠ .nil → p ≠ []) := by
  intro t
  induction t with
  | nil =>
    intro c _ acc
    exact ⟨[], by simp [buscarNodo], fun hne => absurd rfl hne⟩
  | nodo rn h i d ihi ihd =>
    intro c hc acc
    have hne : ¬ c = rn.clave := fun hx => hc (by simp [hx])
    by_cases hlt : c < rn.clave
    · obtain ⟨p, hp, _⟩ := ihi c (fun hx => hc (by simp [hx])) (acc ++ [rn.clave])
      refine ⟨rn.clave :: p, ?_, fun _ => by simp⟩
      simp only [buscarNodo, if_neg hne, if_pos hlt]
      rw [hp]
      simp
    · obtain ⟨p, hp, _⟩ := ihd c (fun hx => hc (by simp [hx])) (acc ++ [rn.clave])
      refine ⟨rn.clave :: p, ?_, fun _ => by simp⟩
      simp only [buscarNodo, if_neg hne, if_neg hlt]
      rw [hp]
      simp

theorem buscar_fst_none {t : NodoAVL} {c : Int} (h : c ∉ claves t) :
    (buscar t c).1 = none := by
  obtain ⟨p, hp, _⟩ := buscarNodo_ausente t c h []
  rw [buscar, hp]

theorem buscar_isSome_iff {t : NodoAVL} {c : Int} (hord : ordenBusqueda t) :
    (buscar t c).1.isSome = true ↔ c ∈ claves t := by
  constructor
  · intro hs
    by_contra hc
    rw [buscar_fst_none hc] at hs
    simp at hs
  · intro hc
    obtain ⟨r, p0, hp, _, _⟩ := buscarNodo_encontrado t c hord hc []
    rw [buscar, hp]
    rfl

/-! ### Bulk loading -/

theorem cargarLista_spec :
    ∀ (rs : List Registro) (t : NodoAVL), esAVL t →
    (claves t ++ rs.map Registro.clave).Nodup →
    ∃ t2, cargarLista t rs = .exito t2 ∧ esAVL t2 ∧
      in_order_traversal t2 =
        rs.foldl (fun acc r => insertarOrden r acc) (in_order_traversal t) := by
  intro rs
  induction rs with
  | nil =>
    intro t hA _
    exact ⟨t, rfl, hA, rfl⟩
  | cons r rs ih =>
    intro t hA hnd
    rw [List.map_cons, List.nodup_append] at hnd
    obtain ⟨hnd1, hnd2, hdj⟩ := hnd
    have hrm : r.clave ∉ claves t := fun hx =>
      hdj hx (List.mem_cons_self _ _)
    have hnone : (buscar t r.clave).1 = none := buscar_fst_none hrm
    obtain ⟨t2, evs, hins, hA2, hord2, _, _⟩ := insertarNodo_spec t r hA hrm
    have hpaso : insertar t r = .exito t2 evs := by
      rw [insertar, if_neg (by simp [hnone]), hins]
    have hmem2 : ∀ k, k ∈ claves t2 ↔ k = r.clave ∨ k ∈ claves t := by
      intro k
      simp only [claves]
      rw [hord2]
      exact mem_claves_insertarOrden r _
    have hnd2' : (claves t2 ++ rs.map Registro.clave).Nodup := by
      rw [List.nodup_append]
      refine ⟨nodup_claves hA2.1, (List.nodup_cons.mp hnd2).2, ?_⟩
      intro a ha har
      rcases (hmem2 a).mp ha with hx | hx
      · rw [hx] at har
        exact (List.nodup_cons.mp hnd2).1 har
      · exact hdj hx (List.mem_cons_of_mem _ har)
    obtain ⟨t3, hc3, hA3, hord3⟩ := ih t2 hA2 hnd2'
    refine ⟨t3, ?_, hA3, ?_⟩
    · rw [cargarLista, hpaso]
      exact hc3
    · rw [hord3, List.foldl_cons, hord2]

theorem foldl_insertarOrden_ordenada :
    ∀ (l acc : List Registro),
    ((acc ++ l).map Registro.clave).Pairwise (· < ·) →
    l.foldl (fun acc r => insertarOrden r acc) acc = acc ++ l := by
  intro l
  induction l with
  | nil => intro acc _; simp
  | cons r rs ih =>
    intro acc hpw
    have hlt : ∀ y ∈ acc, y.clave < r.clave := by
      intro y hy
      rw [List.map_append, List.pairwise_append] at hpw
      exact hpw.2.2 y.clave (List.mem_map_of_mem _ hy) r.clave (by simp)
    rw [List.foldl_cons, insertarOrden_all_lt r acc hlt]
    have : (acc ++ [r]) ++ rs = acc ++ r :: rs := by simp
    rw [ih (acc ++ [r]) (by rw [this]; exact hpw), this]

/-! ### Deletion: list lemmas, successor, rebalance evaluation -/

theorem borrarOrden_not_mem {c : Int} {l : List Registro}
    (h : c ∉ l.map Registro.clave) : borrarOrden c l = l := by
  induction l with
  | nil => rfl
  | cons x xs ih =>
    have hx : ¬ x.clave = c := fun he => h (by simp [he])
    simp only [borrarOrden, if_neg hx, List.cons.injEq, true_and]
    exact ih (fun hm => h (by simp at hm ⊢; exact Or.inr hm))

theorem borrarOrden_append_mem (c : Int) (A B : List Registro)
    (h : c ∈ A.map Registro.clave) :
    borrarOrden c (A ++ B) = borrarOrden c A ++ B := by
  induction A with
  | nil => simp at h
  | cons x xs ih =>
    by_cases hx : x.clave = c
    · simp only [List.cons_append, borrarOrden, if_pos hx]
      rfl
    · simp only [List.cons_append, borrarOrden, if_neg hx, List.cons.injEq,
        true_and]
      refine ih ?_
      simp only [List.map_cons, List.mem_cons] at h
      rcases h with h | h
      · exact absurd h.symm hx
      · exact h

theorem min_valor_eq_head :
    ∀ (d : NodoAVL), d ≠ .nil →
    ∃ m l2, min_valor_nodo d = some m ∧ in_order_traversal d = m :: l2 := by
  intro d
  induction d with
  | nil => intro h; exact absurd rfl h
  | nodo r h i dd ihi _ =>
    intro _
    rcases i with _ | ⟨ri, hi, ii, di⟩
    · exact ⟨r, in_order_traversal dd, rfl, by simp⟩
    · obtain ⟨m, l2, hm, hl⟩ := ihi (by simp)
      refine ⟨m, l2 ++ r :: in_order_traversal dd, ?_, ?_⟩
      · rw [min_valor_nodo]
        exact hm
      · rw [in_order_nodo, hl]
        simp

theorem balancearEliminacion_sin (rn : Registro) (h : Nat) (i d : NodoAVL)
    (h1 : obtener_balance (.nodo rn h i d) ≤ 1)
    (h2 : -1 ≤ obtener_balance (.nodo rn h i d)) :
    balancearEliminacion (.nodo rn h i d) = some (.nodo rn h i d) := by
  simp only [balancearEliminacion]
  rw [if_neg (by omega), if_neg (by omega)]

theorem balancearEliminacion_LL (rn : Registro) (h : Nat) (ri : Registro)
    (hi : Nat) (ii di d : NodoAVL)
    (hb : obtener_balance (.nodo rn h (.nodo ri hi ii di) d) > 1)
    (hbi : obtener_balance (.nodo ri hi ii di) ≥ 0) :
    balancearEliminacion (.nodo rn h (.nodo ri hi ii di) d) =
      some (nodoConAltura ri ii (nodoConAltura rn di d)) := by
  simp only [balancearEliminacion]
  rw [if_pos hb, if_pos hbi, rotacion_derecha_eq]

theorem balancearEliminacion_LR (rn : Registro) (h : Nat) (ri : Registro)
    (hi : Nat) (ii : NodoAVL) (rdi : Registro) (hdi : Nat) (x y d : NodoAVL)
    (hb : obtener_balance (.nodo rn h (.nodo ri hi ii (.nodo rdi hdi x y)) d) > 1)
    (hbi : ¬ obtener_balance (.nodo ri hi ii (.nodo rdi hdi x y)) ≥ 0) :
    balancearEliminacion (.nodo rn h (.nodo ri hi ii (.nodo rdi hdi x y)) d) =
      some (nodoConAltura rdi (nodoConAltura ri ii x) (nodoConAltura rn y d)) := by
  simp only [balancearEliminacion]
  rw [if_pos hb, if_neg hbi, rotacion_izquierda_eq]
  simp only [nodoConAltura_eq, rotacion_derecha_eq]

theorem balancearEliminacion_RR (rn : Registro) (h : Nat) (i : NodoAVL)
    (rd : Registro) (hd : Nat) (id2 dd : NodoAVL)
    (hb : obtener_balance (.nodo rn h i (.nodo rd hd id2 dd)) < -1)
    (hbd : obtener_balance (.nodo rd hd id2 dd) ≤ 0) :
    balancearEliminacion (.nodo rn h i (.nodo rd hd id2 dd)) =
      some (nodoConAltura rd (nodoConAltura rn i id2) dd) := by
  simp only [balancearEliminacion]
  rw [if_neg (by omega), if_pos hb, if_pos hbd, rotacion_izquierda_eq]

theorem balancearEliminacion_RL (rn : Registro) (h : Nat) (i : NodoAVL)
    (rd : Registro) (hd : Nat) (rdl : Registro) (hdl : Nat) (x y dd : NodoAVL)
    (hb : obtener_balance (.nodo rn h i (.nodo rd hd (.nodo rdl hdl x y) dd)) < -1)
    (hbd : ¬ obtener_balance (.nodo rd hd (.nodo rdl hdl x y) dd) ≤ 0) :
    balancearEliminacion (.nodo rn h i (.nodo rd hd (.nodo rdl hdl x y) dd)) =
      some (nodoConAltura rdl (nodoConAltura rn i x) (nodoConAltura rd y dd)) := by
  simp only [balancearEliminacion]
  rw [if_neg (by omega), if_pos hb, if_neg hbd, rotacion_derecha_eq]
  simp only [nodoConAltura_eq, rotacion_izquierda_eq]

/-- Workhorse for the deletion unwind: rebuilding a node whose children are
valid AVL subtrees with a height gap of at most two, the rebalance dispatch
cannot crash, restores all invariants, keeps the in-order sequence, and
produces a subtree within one of the ideal height; when the gap was already
within one, the height is exact. -/
theorem balancearEliminacion_spec (rn : Registro) {i d : NodoAVL}
    (hAi : esAVL i) (hAd : esAVL d)
    (hb1 : ∀ k ∈ claves i, k < rn.clave) (hb2 : ∀ k ∈ claves d, rn.clave < k)
    (hdiff1 : (alturaReal i : Int) - (alturaReal d : Int) ≤ 2)
    (hdiff2 : (alturaReal d : Int) - (alturaReal i : Int) ≤ 2) :
    ∃ t2, balancearEliminacion (nodoConAltura rn i d) = some t2 ∧ esAVL t2 ∧
      in_order_traversal t2 =
        in_order_traversal i ++ rn :: in_order_traversal d ∧
      alturaReal t2 ≤ 1 + max (alturaReal i) (alturaReal d) ∧
      1 + max (alturaReal i) (alturaReal d) ≤ alturaReal t2 + 1 ∧
      (((alturaReal i : Int) - (alturaReal d : Int) ≤ 1 ∧
          (alturaReal d : Int) - (alturaReal i : Int) ≤ 1) →
        alturaReal t2 = 1 + max (alturaReal i) (alturaReal d)) := by
  by_cases hcaso : ((alturaReal i : Int) - (alturaReal d : Int) ≤ 1 ∧
      (alturaReal d : Int) - (alturaReal i : Int) ≤ 1)
  · rw [nodoConAltura_eq, balancearEliminacion_sin rn _ i d
        (by rw [obtener_balance_nodo rn _ hAi.2.2 hAd.2.2]; omega)
        (by rw [obtener_balance_nodo rn _ hAi.2.2 hAd.2.2]; omega)]
    refine ⟨_, rfl, ?_, by simp, ?_, ?_, fun _ => ?_⟩
    · exact esAVL_construir rn hAi hAd hb1 hb2 (by omega) (by omega)
    · simp only [alturaReal_nodo]
      omega
    · simp only [alturaReal_nodo]
      omega
    · simp only [alturaReal_nodo]
  · by_cases hLR : (alturaReal d : Int) < alturaReal i
    · -- el subárbol izquierdo sobresale en dos
      rcases i with _ | ⟨ri, hsi, ii, di⟩
      · exfalso
        simp only [alturaReal_nil] at hLR
        omega
      · have hAiC := hAi
        obtain ⟨g1, g2, g3, g4, g5, gAii, gAdi⟩ := esAVL_nodo_iff.mp hAi
        simp only [alturaReal_nodo] at hdiff1 hdiff2 hcaso hLR
        have h9 : ri.clave < rn.clave := hb1 ri.clave (by simp)
        by_cases hbi : (alturaReal ii : Int) - (alturaReal di : Int) ≥ 0
        · rw [nodoConAltura_eq, balancearEliminacion_LL rn _ ri hsi ii di d
              (by rw [obtener_balance_nodo rn _ hAiC.2.2 hAd.2.2]
                  simp only [alturaReal_nodo]; omega)
              (by rw [obtener_balance_nodo ri hsi gAii.2.2 gAdi.2.2]; omega)]
          refine ⟨_, rfl, ?_, ?_, ?_, ?_, fun hx => ?_⟩
          · refine esAVL_construir ri gAii ?_ g1 ?_ ?_ ?_
            · refine esAVL_construir rn gAdi hAd ?_ hb2 (by omega) (by omega)
              intro k hk
              exact hb1 k (by simp [hk])
            · intro k hk
              simp only [nodoConAltura_eq, claves_nodo, List.mem_append,
                List.mem_cons] at hk
              rcases hk with hk | hk | hk
              · exact g2 k hk
              · rw [hk]; exact h9
              · exact lt_trans h9 (hb2 k hk)
            · simp only [alturaReal_nodoConAltura]
              omega
            · simp only [alturaReal_nodoConAltura]
              omega
          · simp only [nodoConAltura_eq, in_order_nodo, List.append_assoc,
              List.cons_append]
          · simp only [alturaReal_nodoConAltura, alturaReal_nodo]
            omega
          · simp only [alturaReal_nodoConAltura, alturaReal_nodo]
            omega
          · exfalso
            simp only [alturaReal_nodo] at hx
            omega
        · -- el hijo izquierdo está cargado a la derecha: doble rotación
          rcases di with _ | ⟨rdi, hsdi, x, y⟩
          · exfalso
            simp only [alturaReal_nil] at hbi
            omega
          · have hAdiC := gAdi
            obtain ⟨q1, q2, q3, q4, q5, qAx, qAy⟩ := esAVL_nodo_iff.mp gAdi
            simp only [alturaReal_nodo] at hdiff1 hdiff2 hcaso hLR hbi g3 g4
            have h10 : ri.clave < rdi.clave := g2 rdi.clave (by simp)
            have h11 : rdi.clave < rn.clave := hb1 rdi.clave (by simp)
            rw [nodoConAltura_eq, balancearEliminacion_LR rn _ ri hsi ii
                rdi hsdi x y d
                (by rw [obtener_balance_nodo rn _ hAiC.2.2 hAd.2.2]
                    simp only [alturaReal_nodo]; omega)
                (by rw [obtener_balance_nodo ri hsi gAii.2.2 hAdiC.2.2]
                    simp only [alturaReal_nodo]; omega)]
            refine ⟨_, rfl, ?_, ?_, ?_, ?_, fun hx => ?_⟩
            · refine esAVL_construir rdi ?_ ?_ ?_ ?_ ?_ ?_
              · refine esAVL_construir ri gAii qAx g1 ?_ (by omega) (by omega)
                intro k hk
                exact g2 k (by simp [hk])
              · refine esAVL_construir rn qAy hAd ?_ hb2 (by omega) (by omega)
                intro k hk
                exact hb1 k (by simp [hk])
              · intro k hk
                simp only [nodoConAltura_eq, claves_nodo, List.mem_append,
                  List.mem_cons] at hk
                rcases hk with hk | hk | hk
                · exact lt_trans (g1 k hk) h10
                · rw [hk]; exact h10
                · exact q1 k hk
              · intro k hk
                simp only [nodoConAltura_eq, claves_nodo, List.mem_append,
                  List.mem_cons] at hk
                rcases hk with hk | hk | hk
                · exact q2 k hk
                · rw [hk]; exact h11
                · exact lt_trans h11 (hb2 k hk)
              · simp only [alturaReal_nodoConAltura]
                omega
              · simp only [alturaReal_nodoConAltura]
                omega
            · simp only [nodoConAltura_eq, in_order_nodo, List.append_assoc,
                List.cons_append]
            · simp only [alturaReal_nodoConAltura, alturaReal_nodo]
              omega
            · simp only [alturaReal_nodoConAltura, alturaReal_nodo]
              omega
            · exfalso
              simp only [alturaReal_nodo] at hx
              omega
    · -- el subárbol derecho sobresale en dos
      rcases d with _ | ⟨rd, hsd, id2, dd⟩
      · exfalso
        simp only [alturaReal_nil] at hcaso hLR hdiff1 hdiff2
        omega
      · have hAdC := hAd
        obtain ⟨g1, g2, g3, g4, g5, gAid2, gAdd⟩ := esAVL_nodo_iff.mp hAd
        simp only [alturaReal_nodo] at hdiff1 hdiff2 hcaso hLR
        have h9 : rn.clave < rd.clave := hb2 rd.clave (by simp)
        by_cases hbd : (alturaReal id2 : Int) - (alturaReal dd : Int) ≤ 0
        · rw [nodoConAltura_eq, balancearEliminacion_RR rn _ i rd hsd id2 dd
              (by rw [obtener_balance_nodo rn _ hAi.2.2 hAdC.2.2]
                  simp only [alturaReal_nodo]; omega)
              (by rw [obtener_balance_nodo rd hsd gAid2.2.2 gAdd.2.2]; omega)]
          refine ⟨_, rfl, ?_, ?_, ?_, ?_, fun hx => ?_⟩
          · refine esAVL_construir rd ?_ gAdd ?_ g2 ?_ ?_
            · refine esAVL_construir rn hAi gAid2 hb1 ?_ (by omega) (by omega)
              intro k hk
              exact hb2 k (by simp [hk])
            · intro k hk
              simp only [nodoConAltura_eq, claves_nodo, List.mem_append,
                List.mem_cons] at hk
              rcases hk with hk | hk | hk
              · exact lt_trans (hb1 k hk) h9
              · rw [hk]; exact h9
              · exact g1 k hk
            · simp only [alturaReal_nodoConAltura]
              omega
            · simp only [alturaReal_nodoConAltura]
              omega
          · simp only [nodoConAltura_eq, in_order_nodo, List.append_assoc,
              List.cons_append]
          · simp only [alturaReal_nodoConAltura, alturaReal_nodo]
            omega
          · simp only [alturaReal_nodoConAltura, alturaReal_nodo]
            omega
          · exfalso
            simp only [alturaReal_nodo] at hx
            omega
        · -- el hijo derecho está cargado a la izquierda: doble rotación
          rcases id2 with _ | ⟨rdl, hsdl, x, y⟩
          · exfalso
            simp only [alturaReal_nil] at hbd
            omega
          · have hAid2C := gAid2
            obtain ⟨q1, q2, q3, q4, q5, qAx, qAy⟩ := esAVL_nodo_iff.mp gAid2
            simp only [alturaReal_nodo] at hdiff1 hdiff2 hcaso hLR hbd g3 g4
            have h10 : rdl.clave < rd.clave := g1 rdl.clave (by simp)
            have h11 : rn.clave < rdl.clave := hb2 rdl.clave (by simp)
            rw [nodoConAltura_eq, balancearEliminacion_RL rn _ i rd hsd
                rdl hsdl x y dd
                (by rw [obtener_balance_nodo rn _ hAi.2.2 hAdC.2.2]
                    simp only [alturaReal_nodo]; omega)
                (by rw [obtener_balance_nodo rd hsd hAid2C.2.2 gAdd.2.2]
                    simp only [alturaReal_nodo]; omega)]
            refine ⟨_, rfl, ?_, ?_, ?_, ?_, fun hx => ?_⟩
            · refine esAVL_construir rdl ?_ ?_ ?_ ?_ ?_ ?_
              · refine esAVL_construir rn hAi qAx hb1 ?_ (by omega) (by omega)
                intro k hk
                exact hb2 k (by simp [hk])
              · refine esAVL_construir rd qAy gAdd ?_ g2 (by omega) (by omega)
                intro k hk
                exact g1 k (by simp [hk])
              · intro k hk
                simp only [nodoConAltura_eq, claves_nodo, List.mem_append,
                  List.mem_cons] at hk
                rcases hk with hk | hk | hk
                · exact lt_trans (hb1 k hk) h11
                · rw [hk]; exact h11
                · exact q1 k hk
              · intro k hk
                simp only [nodoConAltura_eq, claves_nodo, List.mem_append,
                  List.mem_cons] at hk
                rcases hk with hk | hk | hk
                · exact q2 k hk
                · rw [hk]; exact h10
                · exact lt_trans h10 (g2 k hk)
              · simp only [alturaReal_nodoConAltura]
                omega
              · simp only [alturaReal_nodoConAltura]
                omega
            · simp only [nodoConAltura_eq, in_order_nodo, List.append_assoc,
                List.cons_append]
            · simp only [alturaReal_nodoConAltura, alturaReal_nodo]
              omega
            · simp only [alturaReal_nodoConAltura, alturaReal_nodo]
              omega
            · exfalso
              simp only [alturaReal_nodo] at hx
              omega

/-- Manual unfolding equation for `eliminarNodo` at a node (the nested
match on the two children splits the automatically generated equations). -/
theorem eliminarNodo_nodo (rn : Registro) (h : Nat) (i d : NodoAVL)
    (clave : Int) :
    eliminarNodo (.nodo rn h i d) clave =
      if clave < rn.clave then
        match eliminarNodo i clave with
        | none => none
        | some i2 => balancearEliminacion (nodoConAltura rn i2 d)
      else if rn.clave < clave then
        match eliminarNodo d clave with
        | none => none
        | some d2 => balancearEliminacion (nodoConAltura rn i d2)
      else
        match i, d with
        | .nil, _ => some d
        | .nodo ri hi ii di, .nil => some (.nodo ri hi ii di)
        | .nodo ri hi ii di, .nodo rd hd id2 dd =>
          match min_valor_nodo (.nodo rd hd id2 dd) with
          | none => none
          | some temp =>
            match eliminarNodo (.nodo rd hd id2 dd) temp.clave with
            | none => none
            | some d2 =>
              balancearEliminacion
                (nodoConAltura temp (.nodo ri hi ii di) d2) := by
  cases i <;> cases d <;> rfl

/-- Main correctness lemma for `_eliminar`: on a valid AVL tree it cannot
crash, preserves the three invariants, removes exactly the (unique) record
with the given key from the in-order sequence, and shrinks the height by at
most one. -/
theorem eliminarNodo_spec :
    ∀ (t : NodoAVL) (c : Int), esAVL t →
    ∃ t2, eliminarNodo t c = some t2 ∧ esAVL t2 ∧
      in_order_traversal t2 = borrarOrden c (in_order_traversal t) ∧
      (alturaReal t2 ≤ alturaReal t ∧ alturaReal t ≤ alturaReal t2 + 1) := by
  intro t
  induction t with
  | nil =>
    intro c _
    exact ⟨.nil, rfl, esAVL_nil, rfl, le_refl _, by omega⟩
  | nodo rn h i d ihi ihd =>
    intro c havl
    obtain ⟨hb1, hb2, he1, he2, hh, hAi, hAd⟩ := esAVL_nodo_iff.mp havl
    rcases lt_trichotomy c rn.clave with hlt | heq | hgt
    · -- la clave a borrar queda a la izquierda
      obtain ⟨i2, hdel, hAi2, hord2, hle1, hle2⟩ := ihi c hAi
      have hsub : ∀ k ∈ claves i2, k ∈ claves i := by
        intro k hk
        simp only [claves] at hk ⊢
        rw [hord2] at hk
        obtain ⟨y, hy, hyk⟩ := List.mem_map.mp hk
        exact List.mem_map.mpr ⟨y, mem_borrarOrden hy, hyk⟩
      obtain ⟨t2, hbal, hA2, hord3, hb3, hb4, hb5⟩ :=
        balancearEliminacion_spec rn hAi2 hAd
          (fun k hk => hb1 k (hsub k hk)) hb2 (by omega) (by omega)
      refine ⟨t2, ?_, hA2, ?_, ?_⟩
      · rw [eliminarNodo_nodo]
        simp only [if_pos hlt, hdel]
        exact hbal
      · rw [hord3, hord2, in_order_nodo]
        by_cases hc : c ∈ (in_order_traversal i).map Registro.clave
        · rw [borrarOrden_append_mem c _ _ hc]
        · have hcd : c ∉ (in_order_traversal d).map Registro.clave :=
            fun hx => absurd (hb2 c hx) (by omega)
          rw [borrarOrden_not_mem hc, borrarOrden_append_not_mem c _ _ hc]
          simp only [borrarOrden, if_neg (show ¬ rn.clave = c by omega),
            borrarOrden_not_mem hcd]
      · simp only [alturaReal_nodo]
        by_cases hc2 : ((alturaReal i2 : Int) - (alturaReal d : Int) ≤ 1 ∧
            (alturaReal d : Int) - (alturaReal i2 : Int) ≤ 1)
        · have := hb5 hc2
          omega
        · omega
    · -- la clave a borrar está en este nodo
      rcases i with _ | ⟨ri, hsi, ii, di⟩
      · -- sin hijo izquierdo: se devuelve el derecho sin rebalancear
        refine ⟨d, ?_, hAd, ?_, ?_⟩
        · rw [eliminarNodo_nodo]
          simp only [if_neg (show ¬ c < rn.clave by omega),
            if_neg (show ¬ rn.clave < c by omega)]
        · conv_rhs => rw [in_order_nodo]
          simp only [in_order_nil, List.nil_append]
          rw [borrarOrden_cons_eq _ heq.symm]
        · simp only [alturaReal_nodo, alturaReal_nil]
          omega
      · rcases d with _ | ⟨rd, hsd, id2, dd⟩
        · -- sin hijo derecho: se devuelve el izquierdo sin rebalancear
          refine ⟨_, ?_, hAi, ?_, ?_⟩
          · rw [eliminarNodo_nodo]
            simp only [if_neg (show ¬ c < rn.clave by omega),
              if_neg (show ¬ rn.clave < c by omega)]
          · have hcA : c ∉ (in_order_traversal
                (NodoAVL.nodo ri hsi ii di)).map Registro.clave :=
              fun hx => absurd (hb1 c hx) (by omega)
            conv_rhs => rw [in_order_nodo]
            rw [borrarOrden_append_not_mem c _ _ hcA,
              borrarOrden_cons_eq _ heq.symm, in_order_nil, List.append_nil]
          · simp only [alturaReal_nodo, alturaReal_nil]
            omega
        · -- dos hijos: se copia el sucesor y se borra su clave a la derecha
          obtain ⟨m, l2, hmin, hinD⟩ :=
            min_valor_eq_head (NodoAVL.nodo rd hsd id2 dd) (by simp)
          have hmcl : m.clave ∈ claves (NodoAVL.nodo rd hsd id2 dd) :=
            clave_mem_claves (by rw [hinD]; exact List.mem_cons_self _ _)
          have hrm : rn.clave < m.clave := hb2 _ hmcl
          obtain ⟨d2, hdel2, hAd2, hord2, hle1, hle2⟩ := ihd m.clave hAd
          have hord2' : in_order_traversal d2 = l2 := by
            rw [hord2, hinD, borrarOrden_cons_eq _ rfl]
          have hb2' : ∀ k ∈ claves d2, m.clave < k := by
            intro k hk
            have hpw := pairwise_claves hAd.1
            simp only [claves, hord2'] at hk
            rw [claves, hinD, List.map_cons] at hpw
            exact (List.pairwise_cons.mp hpw).1 k hk
          have hb1' : ∀ k ∈ claves (NodoAVL.nodo ri hsi ii di), k < m.clave :=
            fun k hk => lt_trans (hb1 k hk) hrm
          obtain ⟨t2, hbal, hA2, hord3, hb3, hb4, hb5⟩ :=
            balancearEliminacion_spec m hAi hAd2 hb1' hb2'
              (by omega) (by omega)
          refine ⟨t2, ?_, hA2, ?_, ?_⟩
          · rw [eliminarNodo_nodo]
            simp only [if_neg (show ¬ c < rn.clave by omega),
              if_neg (show ¬ rn.clave < c by omega), hmin, hdel2]
            exact hbal
          · rw [hord3, hord2']
            have hcA : c ∉ (in_order_traversal
                (NodoAVL.nodo ri hsi ii di)).map Registro.clave :=
              fun hx => absurd (hb1 c hx) (by omega)
            conv_rhs => rw [in_order_nodo]
            rw [borrarOrden_append_not_mem c _ _ hcA,
              borrarOrden_cons_eq _ heq.symm, hinD]
          · simp only [alturaReal_nodo] at hb3 hb4 hb5 hle1 hle2 he1 he2 ⊢
            by_cases hc2 :
                ((alturaReal (NodoAVL.nodo ri hsi ii di) : Int) -
                  (alturaReal d2 : Int) ≤ 1 ∧
                  (alturaReal d2 : Int) -
                  (alturaReal (NodoAVL.nodo ri hsi ii di) : Int) ≤ 1)
            · have := hb5 (by simp only [alturaReal_nodo] at hc2 ⊢; omega)
              omega
            · simp only [alturaReal_nodo] at hc2
              omega
    · -- la clave a borrar queda a la derecha
      obtain ⟨d2, hdel, hAd2, hord2, hle1, hle2⟩ := ihd c hAd
      have hsub : ∀ k ∈ claves d2, k ∈ claves d := by
        intro k hk
        simp only [claves] at hk ⊢
        rw [hord2] at hk
        obtain ⟨y, hy, hyk⟩ := List.mem_map.mp hk
        exact List.mem_map.mpr ⟨y, mem_borrarOrden hy, hyk⟩
      obtain ⟨t2, hbal, hA2, hord3, hb3, hb4, hb5⟩ :=
        balancearEliminacion_spec rn hAi hAd2
          hb1 (fun k hk => hb2 k (hsub k hk)) (by omega) (by omega)
      refine ⟨t2, ?_, hA2, ?_, ?_⟩
      · rw [eliminarNodo_nodo]
        simp only [if_neg (show ¬ c < rn.clave by omega), if_pos hgt, hdel]
        exact hbal
      · rw [hord3, hord2, in_order_nodo]
        have hcA : c ∉ (in_order_traversal i).map Registro.clave :=
          fun hx => absurd (hb1 c hx) (by omega)
        rw [borrarOrden_append_not_mem c _ _ hcA]
        simp only [borrarOrden, if_neg (show ¬ rn.clave = c by omega)]
      · simp only [alturaReal_nodo]
        by_cases hc2 : ((alturaReal i : Int) - (alturaReal d2 : Int) ≤ 1 ∧
            (alturaReal d2 : Int) - (alturaReal i : Int) ≤ 1)
        · have := hb5 hc2
          omega
        · omega

/-! ### Price-range search -/

theorem rango_sound (pmin pmax : Int) :
    ∀ (t : NodoAVL) (r : Registro),
    r ∈ (buscar_por_rango_precios t pmin pmax).1 →
    r ∈ in_order_traversal t ∧ pmin ≤ r.precio ∧ r.precio ≤ pmax := by
  intro t
  induction t with
  | nil => intro r hr; simp [buscar_por_rango_precios] at hr
  | nodo rn h i d ihi ihd =>
    intro r hr
    simp only [buscar_por_rango_precios, List.mem_append] at hr
    rcases hr with (hr | hr) | hr
    · by_cases hc : pmin ≤ rn.precio ∧ rn.precio ≤ pmax
      · rw [if_pos hc] at hr
        simp only [List.mem_singleton] at hr
        subst hr
        exact ⟨by simp, hc.1, hc.2⟩
      · rw [if_neg hc] at hr
        simp at hr
    · by_cases hc : pmin < rn.precio
      · rw [if_pos hc] at hr
        obtain ⟨h1, h2, h3⟩ := ihi r hr
        exact ⟨by simp [h1], h2, h3⟩
      · rw [if_neg hc] at hr
        simp at hr
    · by_cases hc : pmax > rn.precio
      · rw [if_pos hc] at hr
        obtain ⟨h1, h2, h3⟩ := ihd r hr
        exact ⟨by simp [h1], h2, h3⟩
      · rw [if_neg hc] at hr
        simp at hr

theorem rango_complete (pmin pmax : Int) :
    ∀ (t : NodoAVL), preciosCrecientes t →
    ∀ r, r ∈ in_order_traversal t → pmin ≤ r.precio → r.precio ≤ pmax →
    r ∈ (buscar_por_rango_precios t pmin pmax).1 := by
  intro t
  induction t with
  | nil => intro _ r hr; simp at hr
  | nodo rn h i d ihi ihd =>
    intro hP r hr h1 h2
    rw [preciosCrecientes, in_order_nodo, List.pairwise_append] at hP
    obtain ⟨hPA, hPcons, hcross⟩ := hP
    obtain ⟨hrnD, hPD⟩ := List.pairwise_cons.mp hPcons
    simp only [buscar_por_rango_precios, List.mem_append]
    simp only [in_order_nodo, List.mem_append, List.mem_cons] at hr
    rcases hr with hr | hr | hr
    · have hpr : r.precio < rn.precio := hcross r hr rn (List.mem_cons_self _ _)
      left; right
      rw [if_pos (by omega)]
      exact ihi hPA r hr h1 h2
    · subst hr
      left; left
      rw [if_pos ⟨h1, h2⟩]
      simp
    · have hpr : rn.precio < r.precio := hrnD r hr
      right
      rw [if_pos (by omega)]
      exact ihd hPD r hr h1 h2

/-! ### Category search -/

theorem buscarPorCategoriaRec_fst :
    ∀ (t : NodoAVL) (cat : String),
    (buscarPorCategoriaRec t cat).1 =
      (in_order_traversal t).filter (fun r => decide (r.categoria = cat)) := by
  intro t
  induction t with
  | nil => intro cat; rfl
  | nodo rn h i d ihi ihd =>
    intro cat
    simp only [buscarPorCategoriaRec, in_order_nodo, List.filter_append,
      List.filter_cons, ihi, ihd]
    by_cases hc : rn.categoria = cat
    · simp [hc]
    · simp [hc]

theorem buscarPorCategoriaRec_snd_perm :
    ∀ (t : NodoAVL) (cat : String),
    ((buscarPorCategoriaRec t cat).2).Perm (claves t) := by
  intro t
  induction t with
  | nil => intro cat; simp [buscarPorCategoriaRec]
  | nodo rn h i d ihi ihd =>
    intro cat
    simp only [buscarPorCategoriaRec, claves_nodo]
    exact List.Perm.trans
      (List.Perm.cons _ ((ihi cat).append (ihd cat))) List.perm_middle.symm

/-! ### Update in place -/

theorem in_order_mapRegistros (f : Registro → Registro) :
    ∀ (t : NodoAVL),
    in_order_traversal (mapRegistros f t) = (in_order_traversal t).map f := by
  intro t
  induction t with
  | nil => rfl
  | nodo rn h i d ihi ihd => simp [mapRegistros, ihi, ihd]

theorem alturaReal_mapRegistros (f : Registro → Registro) :
    ∀ (t : NodoAVL), alturaReal (mapRegistros f t) = alturaReal t := by
  intro t
  induction t with
  | nil => rfl
  | nodo rn h i d ihi ihd => simp [mapRegistros, ihi, ihd]

theorem claves_mapRegistros {f : Registro → Registro}
    (hf : ∀ r, (f r).clave = r.clave) (t : NodoAVL) :
    claves (mapRegistros f t) = claves t := by
  simp only [claves, in_order_mapRegistros, List.map_map]
  congr 1
  funext r
  exact hf r

theorem mapRegistros_id {f : Registro → Registro} :
    ∀ {t : NodoAVL}, (∀ r ∈ in_order_traversal t, f r = r) →
    mapRegistros f t = t := by
  intro t
  induction t with
  | nil => intro _; rfl
  | nodo rn h i d ihi ihd =>
    intro hf
    simp only [mapRegistros]
    refine congr (congr ?_ ?_) ?_
    · rw [hf rn (by simp)]
    · exact ihi (fun r hr => hf r (by simp [hr]))
    · exact ihd (fun r hr => hf r (by simp [hr]))

theorem actualizarRecursivo_encontrado :
    ∀ (t : NodoAVL) (c : Int) (nc np : Option Int), ordenBusqueda t →
    c ∈ claves t →
    actualizarRecursivo c nc np t =
      (some true, mapRegistros
        (fun r => if r.clave = c then actualizaCampos r nc np else r) t) := by
  intro t
  induction t with
  | nil => intro c _ _ _ hc; simp at hc
  | nodo rn h i d ihi ihd =>
    intro c nc np hord hc
    obtain ⟨hb1, hb2, hoi, hod⟩ := ordenBusqueda_nodo.mp hord
    have hmapi : c ∉ claves i →
        mapRegistros (fun r => if r.clave = c then actualizaCampos r nc np
          else r) i = i := by
      intro hno
      refine mapRegistros_id ?_
      intro r hr
      refine if_neg (fun he => hno ?_)
      rw [← he]
      exact clave_mem_claves hr
    have hmapd : c ∉ claves d →
        mapRegistros (fun r => if r.clave = c then actualizaCampos r nc np
          else r) d = d := by
      intro hno
      refine mapRegistros_id ?_
      intro r hr
      refine if_neg (fun he => hno ?_)
      rw [← he]
      exact clave_mem_claves hr
    rcases lt_trichotomy c rn.clave with hlt | heq | hgt
    · have hci : c ∈ claves i := by
        rcases mem_claves_nodo.mp hc with hx | hx | hx
        · exact hx
        · omega
        · exact absurd (hb2 c hx) (by omega)
      simp only [actualizarRecursivo, if_neg (show ¬ c = rn.clave by omega),
        if_pos hlt, ihi c nc np hoi hci, mapRegistros]
      rw [if_neg (show ¬ rn.clave = c by omega),
        hmapd (fun hx => absurd (hb2 c hx) (by omega))]
    · simp only [actualizarRecursivo, if_pos heq, mapRegistros]
      rw [if_pos (show rn.clave = c from heq.symm),
        hmapi (fun hx => absurd (hb1 c hx) (by omega)),
        hmapd (fun hx => absurd (hb2 c hx) (by omega))]
      rfl
    · have hcd : c ∈ claves d := by
        rcases mem_claves_nodo.mp hc with hx | hx | hx
        · exact absurd (hb1 c hx) (by omega)
        · omega
        · exact hx
      simp only [actualizarRecursivo, if_neg (show ¬ c = rn.clave by omega),
        if_neg (show ¬ c < rn.clave by omega), ihd c nc np hod hcd,
        mapRegistros]
      rw [if_neg (show ¬ rn.clave = c by omega),
        hmapi (fun hx => absurd (hb1 c hx) (by omega))]

theorem actualizarRecursivo_ausente :
    ∀ (t : NodoAVL) (c : Int) (nc np : Option Int), c ∉ claves t →
    actualizarRecursivo c nc np t = (none, t) := by
  intro t
  induction t with
  | nil => intro c nc np _; rfl
  | nodo rn h i d ihi ihd =>
    intro c nc np hc
    have hne : ¬ c = rn.clave := fun hx => hc (by simp [hx])
    by_cases hlt : c < rn.clave
    · simp only [actualizarRecursivo, if_neg hne, if_pos hlt,
        ihi c nc np (fun hx => hc (by simp [hx]))]
    · simp only [actualizarRecursivo, if_neg hne, if_neg hlt,
        ihd c nc np (fun hx => hc (by simp [hx]))]

/-! ### Public mutation sequences -/

theorem ejecutar_preserva :
    ∀ (ops : List Operacion) (t : NodoAVL), esAVL t →
    ∃ t2, ejecutar t ops = some t2 ∧ esAVL t2 := by
  intro ops
  induction ops with
  | nil => intro t hA; exact ⟨t, rfl, hA⟩
  | cons op ops ih =>
    intro t hA
    rcases op with r | c
    · by_cases hdup : (buscar t r.clave).1.isSome = true
      · have hstep : paso t (.inserta r) = some t := by
          simp only [paso, insertar, if_pos hdup]
        obtain ⟨t2, h2, hA2⟩ := ih t hA
        exact ⟨t2, by simp only [ejecutar, hstep]; exact h2, hA2⟩
      · have hmem : r.clave ∉ claves t := fun hm =>
          hdup ((buscar_isSome_iff hA.1).mpr hm)
        obtain ⟨t2, evs, hins, hA2, _, _, _⟩ := insertarNodo_spec t r hA hmem
        have hstep : paso t (.inserta r) = some t2 := by
          simp only [paso, insertar, if_neg hdup, hins]
        obtain ⟨t3, h3, hA3⟩ := ih t2 hA2
        exact ⟨t3, by simp only [ejecutar, hstep]; exact h3, hA3⟩
    · obtain ⟨t2, hdel, hA2, _, _⟩ := eliminarNodo_spec t c hA
      have hstep : paso t (.elimina c) = some t2 := hdel
      obtain ⟨t3, h3, hA3⟩ := ih t2 hA2
      exact ⟨t3, by simp only [ejecutar, hstep]; exact h3, hA3⟩

theorem cargarLista_duplicada :
    ∀ (rs : List Registro) (t : NodoAVL), esAVL t →
    ¬ (claves t ++ rs.map Registro.clave).Nodup →
    cargarLista t rs = .claveDuplicada := by
  intro rs
  induction rs with
  | nil =>
    intro t hA hdup
    exact absurd (by simpa using nodup_claves hA.1) hdup
  | cons r rs ih =>
    intro t hA hdup
    by_cases hmem : r.clave ∈ claves t
    · have hs : (buscar t r.clave).1.isSome = true :=
        (buscar_isSome_iff hA.1).mpr hmem
      rw [cargarLista, insertar, if_pos hs]
    · have hnone : (buscar t r.clave).1 = none := buscar_fst_none hmem
      obtain ⟨t2, evs, hins, hA2, hord2, _, _⟩ := insertarNodo_spec t r hA hmem
      have hmem2 : ∀ k, k ∈ claves t2 ↔ k = r.clave ∨ k ∈ claves t := by
        intro k
        simp only [claves]
        rw [hord2]
        exact mem_claves_insertarOrden r _
      have hdup2 : ¬ (claves t2 ++ rs.map Registro.clave).Nodup := by
        intro hnd
        apply hdup
        rw [List.nodup_append] at hnd
        obtain ⟨hn1, hn2, hdj⟩ := hnd
        rw [List.map_cons, List.nodup_append]
        refine ⟨nodup_claves hA.1, ?_, ?_⟩
        · rw [List.nodup_cons]
          exact ⟨fun hx => hdj ((hmem2 r.clave).mpr (Or.inl rfl)) hx, hn2⟩
        · intro a ha har
          rcases List.mem_cons.mp har with hx | hx
          · rw [hx] at ha
            exact hmem ha
          · exact hdj ((hmem2 a).mpr (Or.inr ha)) hx
      rw [cargarLista, insertar, if_neg (by simp [hnone]), hins]
      exact ih t2 hA2 hdup2

/-! ### Claim theorems -/

/-- Claim C1: for every sequence of `insertar` calls with pairwise distinct
keys starting from the empty tree, after each insert returns (that is,
after every prefix of the sequence) the whole tree satisfies I1 (BST key
order), I2 (AVL balance) and I3 (stored-height correctness). -/
theorem c1_invariantes_tras_inserciones (rs pre suf : List Registro)
    (hdist : (rs.map Registro.clave).Nodup) (hsplit : rs = pre ++ suf) :
    ∃ t, cargarLista .nil pre = .exito t ∧
      ordenBusqueda t ∧ equilibrado t ∧ alturasCorrectas t := by
  have hpre : (pre.map Registro.clave).Nodup := by
    rw [hsplit, List.map_append] at hdist
    exact (List.nodup_append.mp hdist).1
  obtain ⟨t, hc, hA, _⟩ :=
    cargarLista_spec pre .nil esAVL_nil (by simpa using hpre)
  exact ⟨t, hc, hA.1, hA.2.1, hA.2.2⟩

/-- Witness for C1: inserting keys 10, 20 as a prefix of the distinct-key
sequence 10, 20, 30 yields a tree satisfying the three invariants. -/
theorem c1_invariantes_tras_inserciones_witness :
    ∃ t, cargarLista .nil
        [⟨10, "a", 1, 100, "Hogar"⟩, ⟨20, "b", 2, 200, "Cocina"⟩] =
      .exito t ∧ ordenBusqueda t ∧ equilibrado t ∧ alturasCorrectas t :=
  c1_invariantes_tras_inserciones
    [⟨10, "a", 1, 100, "Hogar"⟩, ⟨20, "b", 2, 200, "Cocina"⟩,
      ⟨30, "c", 3, 300, "Deportes"⟩]
    [⟨10, "a", 1, 100, "Hogar"⟩, ⟨20, "b", 2, 200, "Cocina"⟩]
    [⟨30, "c", 3, 300, "Deportes"⟩] (by decide) rfl

/-- Claim C2 (counterexample): a tree satisfying all three invariants and
holding records priced {5, 12, 18, 25}, on which range search(10, 20)
misses the qualifying record priced 12 (the price-based pruning is unsound
on a key-ordered tree), refuting both the general exactness statement and
the {5, 12, 18, 25} example as stated. -/
theorem c2_rango_contraejemplo :
    esAVL (.nodo ⟨2, "p2", 1, 5, "Hogar"⟩ 3
      (.nodo ⟨1, "p1", 1, 12, "Hogar"⟩ 1 .nil .nil)
      (.nodo ⟨3, "p3", 1, 18, "Hogar"⟩ 2 .nil
        (.nodo ⟨4, "p4", 1, 25, "Hogar"⟩ 1 .nil .nil))) ∧
    (⟨1, "p1", 1, 12, "Hogar"⟩ : Registro) ∈ in_order_traversal
      (.nodo ⟨2, "p2", 1, 5, "Hogar"⟩ 3
        (.nodo ⟨1, "p1", 1, 12, "Hogar"⟩ 1 .nil .nil)
        (.nodo ⟨3, "p3", 1, 18, "Hogar"⟩ 2 .nil
          (.nodo ⟨4, "p4", 1, 25, "Hogar"⟩ 1 .nil .nil))) ∧
    (10 : Int) ≤ 12 ∧ (12 : Int) ≤ 20 ∧
    (⟨1, "p1", 1, 12, "Hogar"⟩ : Registro) ∉
      (buscar_por_rango_precios
        (.nodo ⟨2, "p2", 1, 5, "Hogar"⟩ 3
          (.nodo ⟨1, "p1", 1, 12, "Hogar"⟩ 1 .nil .nil)
          (.nodo ⟨3, "p3", 1, 18, "Hogar"⟩ 2 .nil
            (.nodo ⟨4, "p4", 1, 25, "Hogar"⟩ 1 .nil .nil))) 10 20).1 := by
  decide

/-- Claim C2 (amended): range search returns a record exactly when it is
stored and priced within `[pmin, pmax]` provided the stored prices are
strictly increasing along the key order (so the price-based pruning is
lossless); without that proviso only the left-to-right inclusion
(soundness) holds, as the counterexample shows. -/
theorem c2_rango_precios (t : NodoAVL) (pmin pmax : Int)
    (hP : preciosCrecientes t) (r : Registro) :
    r ∈ (buscar_por_rango_precios t pmin pmax).1 ↔
      (r ∈ in_order_traversal t ∧ pmin ≤ r.precio ∧ r.precio ≤ pmax) := by
  constructor
  · exact rango_sound pmin pmax t r
  · intro hx
    exact rango_complete pmin pmax t hP r hx.1 hx.2.1 hx.2.2

/-- Witness for the amended C2: on the price-monotone tree holding prices
{5, 12, 18, 25}, the record priced 12 is returned by range search(10, 20)
because it is stored and within bounds. -/
theorem c2_rango_precios_witness :
    preciosCrecientes (.nodo ⟨2, "b", 1, 12, "Hogar"⟩ 3
      (.nodo ⟨1, "a", 1, 5, "Hogar"⟩ 1 .nil .nil)
      (.nodo ⟨3, "c", 1, 18, "Hogar"⟩ 2 .nil
        (.nodo ⟨4, "d", 1, 25, "Hogar"⟩ 1 .nil .nil))) ∧
    ((⟨2, "b", 1, 12, "Hogar"⟩ : Registro) ∈
      (buscar_por_rango_precios
        (.nodo ⟨2, "b", 1, 12, "Hogar"⟩ 3
          (.nodo ⟨1, "a", 1, 5, "Hogar"⟩ 1 .nil .nil)
          (.nodo ⟨3, "c", 1, 18, "Hogar"⟩ 2 .nil
            (.nodo ⟨4, "d", 1, 25, "Hogar"⟩ 1 .nil .nil))) 10 20).1 ↔
      ((⟨2, "b", 1, 12, "Hogar"⟩ : Registro) ∈ in_order_traversal
        (.nodo ⟨2, "b", 1, 12, "Hogar"⟩ 3
          (.nodo ⟨1, "a", 1, 5, "Hogar"⟩ 1 .nil .nil)
          (.nodo ⟨3, "c", 1, 18, "Hogar"⟩ 2 .nil
            (.nodo ⟨4, "d", 1, 25, "Hogar"⟩ 1 .nil .nil))) ∧
        (10 : Int) ≤ (⟨2, "b", 1, 12, "Hogar"⟩ : Registro).precio ∧
        (⟨2, "b", 1, 12, "Hogar"⟩ : Registro).precio ≤ 20)) :=
  ⟨by decide,
   c2_rango_precios _ 10 20 (by decide) ⟨2, "b", 1, 12, "Hogar"⟩⟩

/-- Claim C3 (counterexample): a source sequence with a duplicated key does
not load with an in-place overwrite; the public `insertar` raises the
duplicate-key `ValueError` first, so the whole load fails. -/
theorem c3_carga_contraejemplo :
    cargarLista .nil
      [⟨7, "x", 1, 10, "Hogar"⟩, ⟨7, "y", 2, 20, "Cocina"⟩] =
      .claveDuplicada := by
  decide

/-- Claim C3 (amended): `load` calls the public `insertar` per record, and
that raises `DuplicateKeyError` on any key it already holds; hence every
source sequence with a repeated key makes the load fail with the
duplicate-key error — the update-in-place branch of `_insertar` is
unreachable through `load`. -/
theorem c3_carga_duplicados (rs : List Registro)
    (hdup : ¬ (rs.map Registro.clave).Nodup) :
    cargarLista .nil rs = .claveDuplicada :=
  cargarLista_duplicada rs .nil esAVL_nil (by simpa using hdup)

/-- Witness for the amended C3 at a concrete duplicated sequence. -/
theorem c3_carga_duplicados_witness :
    cargarLista .nil
      [⟨1, "x", 1, 10, "Hogar"⟩, ⟨2, "y", 2, 20, "Cocina"⟩,
        ⟨1, "z", 3, 30, "Deportes"⟩] = .claveDuplicada :=
  c3_carga_duplicados
    [⟨1, "x", 1, 10, "Hogar"⟩, ⟨2, "y", 2, 20, "Cocina"⟩,
      ⟨1, "z", 3, 30, "Deportes"⟩] (by decide)

/-- Claim C4 (counterexample): inserting keys 10, 20, 30 into the empty
tree emits exactly one rotation event, and it is a left rotation (the
Right-Right case), not the right rotation a Left-Left rebalancing would
emit. -/
theorem c4_rotacion_contraejemplo :
    insertar .nil ⟨10, "a", 1, 100, "Hogar"⟩ =
      .exito (.nodo ⟨10, "a", 1, 100, "Hogar"⟩ 1 .nil .nil) [] ∧
    insertar (.nodo ⟨10, "a", 1, 100, "Hogar"⟩ 1 .nil .nil)
        ⟨20, "b", 2, 200, "Cocina"⟩ =
      .exito (.nodo ⟨10, "a", 1, 100, "Hogar"⟩ 2 .nil
        (.nodo ⟨20, "b", 2, 200, "Cocina"⟩ 1 .nil .nil)) [] ∧
    insertar (.nodo ⟨10, "a", 1, 100, "Hogar"⟩ 2 .nil
        (.nodo ⟨20, "b", 2, 200, "Cocina"⟩ 1 .nil .nil))
        ⟨30, "c", 3, 300, "Deportes"⟩ =
      .exito (.nodo ⟨20, "b", 2, 200, "Cocina"⟩ 2
        (.nodo ⟨10, "a", 1, 100, "Hogar"⟩ 1 .nil .nil)
        (.nodo ⟨30, "c", 3, 300, "Deportes"⟩ 1 .nil .nil))
        [⟨.izquierda, 10, 20⟩] ∧
    (⟨.izquierda, 10, 20⟩ : EventoRotacion).tipo ≠ .derecha := by
  decide

/-- Claim C4 (amended): inserting keys 10, 20, 30 in that order into the
empty tree triggers exactly one rebalancing rotation — a Right-Right case
resolved by a left rotation at the node with key 10, promoting 20 — after
which the root key is 20 and the tree height (stored and real) is 2. -/
theorem c4_rotacion_10_20_30 :
    insertar .nil ⟨10, "a", 1, 100, "Hogar"⟩ =
      .exito (.nodo ⟨10, "a", 1, 100, "Hogar"⟩ 1 .nil .nil) [] ∧
    insertar (.nodo ⟨10, "a", 1, 100, "Hogar"⟩ 1 .nil .nil)
        ⟨20, "b", 2, 200, "Cocina"⟩ =
      .exito (.nodo ⟨10, "a", 1, 100, "Hogar"⟩ 2 .nil
        (.nodo ⟨20, "b", 2, 200, "Cocina"⟩ 1 .nil .nil)) [] ∧
    insertar (.nodo ⟨10, "a", 1, 100, "Hogar"⟩ 2 .nil
        (.nodo ⟨20, "b", 2, 200, "Cocina"⟩ 1 .nil .nil))
        ⟨30, "c", 3, 300, "Deportes"⟩ =
      .exito (.nodo ⟨20, "b", 2, 200, "Cocina"⟩ 2
        (.nodo ⟨10, "a", 1, 100, "Hogar"⟩ 1 .nil .nil)
        (.nodo ⟨30, "c", 3, 300, "Deportes"⟩ 1 .nil .nil))
        [⟨.izquierda, 10, 20⟩] ∧
    raizClave (.nodo ⟨20, "b", 2, 200, "Cocina"⟩ 2
      (.nodo ⟨10, "a", 1, 100, "Hogar"⟩ 1 .nil .nil)
      (.nodo ⟨30, "c", 3, 300, "Deportes"⟩ 1 .nil .nil)) = 20 ∧
    obtener_altura (.nodo ⟨20, "b", 2, 200, "Cocina"⟩ 2
      (.nodo ⟨10, "a", 1, 100, "Hogar"⟩ 1 .nil .nil)
      (.nodo ⟨30, "c", 3, 300, "Deportes"⟩ 1 .nil .nil)) = 2 ∧
    alturaReal (.nodo ⟨20, "b", 2, 200, "Cocina"⟩ 2
      (.nodo ⟨10, "a", 1, 100, "Hogar"⟩ 1 .nil .nil)
      (.nodo ⟨30, "c", 3, 300, "Deportes"⟩ 1 .nil .nil)) = 2 := by
  decide

/-- Claim C5: on every search-ordered tree, inserting a key that is already
present fails with the duplicate-key `ValueError` raised by the preliminary
`buscar` before `_insertar` runs, and the engine state step keeps the tree
exactly as it was. -/
theorem c5_insercion_duplicada (t : NodoAVL) (r : Registro)
    (hord : ordenBusqueda t) (hmem : r.clave ∈ claves t) :
    insertar t r = .claveDuplicada ∧ paso t (.inserta r) = some t := by
  have hs : (buscar t r.clave).1.isSome = true :=
    (buscar_isSome_iff hord).mpr hmem
  constructor
  · rw [insertar, if_pos hs]
  · simp only [paso, insertar, if_pos hs]

/-- Witness for C5 on a one-node tree and a record re-using its key. -/
theorem c5_insercion_duplicada_witness :
    insertar (.nodo ⟨1, "a", 1, 5, "Hogar"⟩ 1 .nil .nil)
        ⟨1, "z", 9, 99, "Cocina"⟩ = .claveDuplicada ∧
      paso (.nodo ⟨1, "a", 1, 5, "Hogar"⟩ 1 .nil .nil)
        (.inserta ⟨1, "z", 9, 99, "Cocina"⟩) =
        some (.nodo ⟨1, "a", 1, 5, "Hogar"⟩ 1 .nil .nil) :=
  c5_insercion_duplicada (.nodo ⟨1, "a", 1, 5, "Hogar"⟩ 1 .nil .nil)
    ⟨1, "z", 9, 99, "Cocina"⟩ (by decide) (by decide)

/-- Claim C6: for every tree built by loading a distinct-key sequence into
the empty engine, saving it (the in-order snapshot) and loading that
snapshot into a fresh empty engine succeeds and reproduces the identical
in-order record sequence. -/
theorem c6_guardar_cargar (rs : List Registro) (t : NodoAVL)
    (hdist : (rs.map Registro.clave).Nodup)
    (hc : cargarLista .nil rs = .exito t) :
    ∃ t2, cargarLista .nil (guardar t) = .exito t2 ∧
      in_order_traversal t2 = in_order_traversal t := by
  obtain ⟨tx, hcx, hAx, _⟩ :=
    cargarLista_spec rs .nil esAVL_nil (by simpa using hdist)
  rw [hc] at hcx
  injection hcx with hte
  subst hte
  obtain ⟨t2, hc2, hA2, hord2⟩ :=
    cargarLista_spec (guardar t) .nil esAVL_nil
      (by simpa [guardar, claves] using nodup_claves hAx.1)
  refine ⟨t2, hc2, ?_⟩
  rw [hord2, guardar]
  have hfold := foldl_insertarOrden_ordenada (in_order_traversal t) []
    (by simpa [claves] using pairwise_claves hAx.1)
  simpa using hfold

/-- Witness for C6: the seven-record build whose third insert needs a
Left-Right double rotation round-trips through save/load. -/
theorem c6_guardar_cargar_witness :
    ∃ t2, cargarLista .nil (guardar (.nodo ⟨25, "c", 1, 250, "Deportes"⟩ 3
        (.nodo ⟨20, "b", 1, 200, "Cocina"⟩ 2
          (.nodo ⟨10, "d", 1, 100, "Hogar"⟩ 1 .nil .nil)
          (.nodo ⟨22, "e", 1, 220, "Cocina"⟩ 1 .nil .nil))
        (.nodo ⟨60, "f", 1, 600, "Hogar"⟩ 2
          (.nodo ⟨50, "a", 1, 500, "Hogar"⟩ 1 .nil .nil)
          (.nodo ⟨80, "g", 1, 800, "Deportes"⟩ 1 .nil .nil)))) =
      .exito t2 ∧
      in_order_traversal t2 = in_order_traversal
        (.nodo ⟨25, "c", 1, 250, "Deportes"⟩ 3
          (.nodo ⟨20, "b", 1, 200, "Cocina"⟩ 2
            (.nodo ⟨10, "d", 1, 100, "Hogar"⟩ 1 .nil .nil)
            (.nodo ⟨22, "e", 1, 220, "Cocina"⟩ 1 .nil .nil))
          (.nodo ⟨60, "f", 1, 600, "Hogar"⟩ 2
            (.nodo ⟨50, "a", 1, 500, "Hogar"⟩ 1 .nil .nil)
            (.nodo ⟨80, "g", 1, 800, "Deportes"⟩ 1 .nil .nil))) :=
  c6_guardar_cargar
    [⟨50, "a", 1, 500, "Hogar"⟩, ⟨20, "b", 1, 200, "Cocina"⟩,
      ⟨25, "c", 1, 250, "Deportes"⟩, ⟨10, "d", 1, 100, "Hogar"⟩,
      ⟨22, "e", 1, 220, "Cocina"⟩, ⟨60, "f", 1, 600, "Hogar"⟩,
      ⟨80, "g", 1, 800, "Deportes"⟩] _ (by decide) (by decide)

/-- Claim C7: category search rejects any category outside the fixed set
{Hogar, Cocina, Electrodomesticos, Deportes} with an error (and, being a
pure query, touches no node); for a valid category it visits the whole
tree (the visited path is a permutation of all keys) and returns exactly
the records with that category, sorted by key ascending. -/
theorem c7_buscar_categoria (t : NodoAVL) (cat : String) :
    (cat ∉ categoriasValidas → buscar_por_categoria t cat = none) ∧
    (cat ∈ categoriasValidas →
      ∃ res camino, buscar_por_categoria t cat = some (res, camino) ∧
        (∀ r, r ∈ res ↔ r ∈ in_order_traversal t ∧ r.categoria = cat) ∧
        res.Pairwise (fun a b => a.clave ≤ b.clave) ∧
        camino.Perm (claves t)) := by
  constructor
  · intro hc
    rw [buscar_por_categoria, if_neg hc]
  · intro hc
    rw [buscar_por_categoria, if_pos hc]
    refine ⟨_, _, rfl, ?_, ?_, buscarPorCategoriaRec_snd_perm t cat⟩
    · intro r
      rw [List.mem_mergeSort, buscarPorCategoriaRec_fst, List.mem_filter]
      simp
    · have hs : (((buscarPorCategoriaRec t cat).1).mergeSort
          (fun a b => decide (a.clave ≤ b.clave))).Pairwise
          (fun a b => decide (a.clave ≤ b.clave) = true) :=
        List.sorted_mergeSort
          (fun a b c hab hbc => by
            simp only [decide_eq_true_eq] at hab hbc ⊢
            omega)
          (fun a b => by
            by_cases hab : a.clave ≤ b.clave
            · simp [hab]
            · simp only [Bool.or_eq_true, decide_eq_true_eq]
              omega)
          ((buscarPorCategoriaRec t cat).1)
      exact hs.imp (fun hab => by simpa using hab)

/-- Witness for C7: the unrecognized category "Juguetes" errors out, a
valid category returns the matching records sorted by key with the full
key set visited. -/
theorem c7_buscar_categoria_witness :
    buscar_por_categoria (.nodo ⟨2, "b", 1, 5, "Hogar"⟩ 2
        (.nodo ⟨1, "a", 1, 12, "Cocina"⟩ 1 .nil .nil) .nil) "Juguetes" =
      none ∧
    (∃ res camino, buscar_por_categoria (.nodo ⟨2, "b", 1, 5, "Hogar"⟩ 2
        (.nodo ⟨1, "a", 1, 12, "Cocina"⟩ 1 .nil .nil) .nil) "Hogar" =
        some (res, camino) ∧
      (∀ r, r ∈ res ↔ r ∈ in_order_traversal (.nodo ⟨2, "b", 1, 5, "Hogar"⟩ 2
        (.nodo ⟨1, "a", 1, 12, "Cocina"⟩ 1 .nil .nil) .nil) ∧
        r.categoria = "Hogar") ∧
      res.Pairwise (fun a b => a.clave ≤ b.clave) ∧
      camino.Perm (claves (.nodo ⟨2, "b", 1, 5, "Hogar"⟩ 2
        (.nodo ⟨1, "a", 1, 12, "Cocina"⟩ 1 .nil .nil) .nil))) :=
  ⟨(c7_buscar_categoria (.nodo ⟨2, "b", 1, 5, "Hogar"⟩ 2
      (.nodo ⟨1, "a", 1, 12, "Cocina"⟩ 1 .nil .nil) .nil) "Juguetes").1
      (by decide),
   (c7_buscar_categoria (.nodo ⟨2, "b", 1, 5, "Hogar"⟩ 2
      (.nodo ⟨1, "a", 1, 12, "Cocina"⟩ 1 .nil .nil) .nil) "Hogar").2
      (by decide)⟩

/-- Claim C8: on every search-ordered tree, exact search of a present key
returns the stored record with that key together with the descent path
ending in (and including) the matched key, and exact search of an absent
key returns "not found" (no error) with a visited path that is non-empty
whenever the tree is non-empty. -/
theorem c8_buscar_exacta (t : NodoAVL) (c : Int) (hord : ordenBusqueda t) :
    (c ∈ claves t →
      ∃ r p0, buscar t c = (some r, p0 ++ [c]) ∧
        r ∈ in_order_traversal t ∧ r.clave = c) ∧
    (c ∉ claves t →
      (buscar t c).1 = none ∧ (t ≠ .nil → (buscar t c).2 ≠ [])) := by
  constructor
  · intro hc
    obtain ⟨r, p0, hp, hmem, hcl⟩ := buscarNodo_encontrado t c hord hc []
    refine ⟨r, p0, ?_, hmem, hcl⟩
    rw [buscar, hp]
    simp
  · intro hc
    obtain ⟨p, hp, hne⟩ := buscarNodo_ausente t c hc []
    refine ⟨?_, fun htne => ?_⟩
    · rw [buscar, hp]
    · rw [buscar, hp]
      simpa using hne htne

/-- Witness for C8: key 1 is found (path ends in 1), key 9 is not found
with a non-empty path, on a two-node tree. -/
theorem c8_buscar_exacta_witness :
    (∃ r p0, buscar (.nodo ⟨2, "b", 1, 5, "Hogar"⟩ 2
        (.nodo ⟨1, "a", 1, 12, "Cocina"⟩ 1 .nil .nil) .nil) 1 =
        (some r, p0 ++ [1]) ∧
      r ∈ in_order_traversal (.nodo ⟨2, "b", 1, 5, "Hogar"⟩ 2
        (.nodo ⟨1, "a", 1, 12, "Cocina"⟩ 1 .nil .nil) .nil) ∧
      r.clave = 1) ∧
    ((buscar (.nodo ⟨2, "b", 1, 5, "Hogar"⟩ 2
        (.nodo ⟨1, "a", 1, 12, "Cocina"⟩ 1 .nil .nil) .nil) 9).1 = none ∧
      ((.nodo ⟨2, "b", 1, 5, "Hogar"⟩ 2
        (.nodo ⟨1, "a", 1, 12, "Cocina"⟩ 1 .nil .nil) .nil) ≠ NodoAVL.nil →
        (buscar (.nodo ⟨2, "b", 1, 5, "Hogar"⟩ 2
          (.nodo ⟨1, "a", 1, 12, "Cocina"⟩ 1 .nil .nil) .nil) 9).2 ≠ [])) :=
  ⟨(c8_buscar_exacta (.nodo ⟨2, "b", 1, 5, "Hogar"⟩ 2
      (.nodo ⟨1, "a", 1, 12, "Cocina"⟩ 1 .nil .nil) .nil) 1 (by decide)).1
      (by decide),
   (c8_buscar_exacta (.nodo ⟨2, "b", 1, 5, "Hogar"⟩ 2
      (.nodo ⟨1, "a", 1, 12, "Cocina"⟩ 1 .nil .nil) .nil) 9 (by decide)).2
      (by decide)⟩

/-- Claim C9: `actualizar_producto` on a key present in a search-ordered
tree answers `True` and rewrites exactly the matched record's supplied
quantity/price fields, leaving the shape, every stored height, the key
set, and all other fields untouched (the result is a pure payload map over
the same tree); on an absent key it answers `None` — not an error — and
the tree is entirely unchanged. -/
theorem c9_actualizar_producto (t : NodoAVL) (c : Int) (nc np : Option Int)
    (hord : ordenBusqueda t) :
    (c ∈ claves t →
      actualizar_producto t c nc np =
        (some true, mapRegistros
          (fun r => if r.clave = c then actualizaCampos r nc np else r) t) ∧
      in_order_traversal (mapRegistros
          (fun r => if r.clave = c then actualizaCampos r nc np else r) t) =
        (in_order_traversal t).map
          (fun r => if r.clave = c then actualizaCampos r nc np else r) ∧
      claves (mapRegistros
          (fun r => if r.clave = c then actualizaCampos r nc np else r) t) =
        claves t ∧
      alturaReal (mapRegistros
          (fun r => if r.clave = c then actualizaCampos r nc np else r) t) =
        alturaReal t) ∧
    (c ∉ claves t → actualizar_producto t c nc np = (none, t)) := by
  constructor
  · intro hc
    refine ⟨actualizarRecursivo_encontrado t c nc np hord hc,
      in_order_mapRegistros _ t, claves_mapRegistros ?_ t,
      alturaReal_mapRegistros _ t⟩
    intro r
    by_cases hrc : r.clave = c
    · rw [if_pos hrc]
      simp [actualizaCampos]
    · rw [if_neg hrc]
  · intro hc
    exact actualizarRecursivo_ausente t c nc np hc

/-- Witness for C9 on a two-node tree: updating the present key 1 and the
absent key 9. -/
theorem c9_actualizar_producto_witness :
    (actualizar_producto (.nodo ⟨2, "b", 1, 5, "Hogar"⟩ 2
        (.nodo ⟨1, "a", 1, 12, "Cocina"⟩ 1 .nil .nil) .nil) 1
        (some 9) none =
      (some true, mapRegistros
        (fun r => if r.clave = 1 then actualizaCampos r (some 9) none else r)
        (.nodo ⟨2, "b", 1, 5, "Hogar"⟩ 2
          (.nodo ⟨1, "a", 1, 12, "Cocina"⟩ 1 .nil .nil) .nil)) ∧
      in_order_traversal (mapRegistros
          (fun r => if r.clave = 1 then actualizaCampos r (some 9) none else r)
          (.nodo ⟨2, "b", 1, 5, "Hogar"⟩ 2
            (.nodo ⟨1, "a", 1, 12, "Cocina"⟩ 1 .nil .nil) .nil)) =
        (in_order_traversal (.nodo ⟨2, "b", 1, 5, "Hogar"⟩ 2
          (.nodo ⟨1, "a", 1, 12, "Cocina"⟩ 1 .nil .nil) .nil)).map
          (fun r => if r.clave = 1 then actualizaCampos r (some 9) none
            else r) ∧
      claves (mapRegistros
          (fun r => if r.clave = 1 then actualizaCampos r (some 9) none else r)
          (.nodo ⟨2, "b", 1, 5, "Hogar"⟩ 2
            (.nodo ⟨1, "a", 1, 12, "Cocina"⟩ 1 .nil .nil) .nil)) =
        claves (.nodo ⟨2, "b", 1, 5, "Hogar"⟩ 2
          (.nodo ⟨1, "a", 1, 12, "Cocina"⟩ 1 .nil .nil) .nil) ∧
      alturaReal (mapRegistros
          (fun r => if r.clave = 1 then actualizaCampos r (some 9) none else r)
          (.nodo ⟨2, "b", 1, 5, "Hogar"⟩ 2
            (.nodo ⟨1, "a", 1, 12, "Cocina"⟩ 1 .nil .nil) .nil)) =
        alturaReal (.nodo ⟨2, "b", 1, 5, "Hogar"⟩ 2
          (.nodo ⟨1, "a", 1, 12, "Cocina"⟩ 1 .nil .nil) .nil)) ∧
    actualizar_producto (.nodo ⟨2, "b", 1, 5, "Hogar"⟩ 2
        (.nodo ⟨1, "a", 1, 12, "Cocina"⟩ 1 .nil .nil) .nil) 9
        (some 9) none =
      (none, .nodo ⟨2, "b", 1, 5, "Hogar"⟩ 2
        (.nodo ⟨1, "a", 1, 12, "Cocina"⟩ 1 .nil .nil) .nil) :=
  ⟨(c9_actualizar_producto (.nodo ⟨2, "b", 1, 5, "Hogar"⟩ 2
      (.nodo ⟨1, "a", 1, 12, "Cocina"⟩ 1 .nil .nil) .nil) 1 (some 9) none
      (by decide)).1 (by decide),
   (c9_actualizar_producto (.nodo ⟨2, "b", 1, 5, "Hogar"⟩ 2
      (.nodo ⟨1, "a", 1, 12, "Cocina"⟩ 1 .nil .nil) .nil) 9 (some 9) none
      (by decide)).2 (by decide)⟩

/-- Claim C10: under every sequence of public insert and delete calls
starting from the empty tree, no operation ever dereferences an absent
node: every step succeeds (a duplicate-key insert raises its intended
error and leaves the tree intact, never crashing), and the tree after the
whole sequence still satisfies the invariants — in particular every
rotation and successor lookup was invoked with its required child
present, since a crash would surface as `none`. -/
theorem c10_sin_desreferencias_nulas (ops : List Operacion) :
    ∃ t, ejecutar .nil ops = some t ∧ esAVL t :=
  ejecutar_preserva ops .nil esAVL_nil

end NodoAVL

end AVLModelo
